import Mathlib

/-!
Verification of the Email-Database-Excel repository.

Python strings are modelled as lists of Unicode code points (`List Nat`);
the inputs exercised by the specification are ASCII.  The regular-expression
fragments used by `gmail_reader.py` are modelled by a small backtracking
matcher (`Re.mrun` / `Re.search`) that reproduces Python `re.search`
semantics (leftmost match, backtracking priority, IGNORECASE, MULTILINE,
DOTALL) for exactly the constructs appearing in the source patterns:
character-class repetition (greedy and lazy), literal words, alternation,
lookahead, and the `^` / `$` anchors under MULTILINE.
-/

namespace EmailDB

/-- Code points of a string literal (model of a Python `str`). -/
def codes (s : String) : List Nat := s.data.map Char.toNat

/-- ASCII lower-casing of one code point (model of `str.lower` on the
ASCII inputs this program handles). -/
def asciiLower (c : Nat) : Nat :=
  if 65 ≤ c ∧ c ≤ 90 then c + 32 else c

/-- ASCII whitespace test: the characters stripped by `str.strip` and
matched by the regex class `\s` on ASCII text
(space, tab, newline, vertical tab, form feed, carriage return). -/
def isWsB (c : Nat) : Bool := c = 32 || (9 ≤ c && c ≤ 13)

/-- Drop trailing whitespace. -/
def rstripWs (l : List Nat) : List Nat :=
  (l.reverse.dropWhile isWsB).reverse

/-- Model of Python `str.strip()`: drop leading and trailing whitespace. -/
def stripWs (l : List Nat) : List Nat :=
  rstripWs (l.dropWhile isWsB)

/-- Model of `re.sub(r'\r\n', '\n', s)`: collapse CRLF pairs to LF,
scanning left to right. -/
def normCRLF : List Nat → List Nat
  | [] => []
  | [c] => [c]
  | c :: d :: rest =>
    if c = 13 ∧ d = 10 then 10 :: normCRLF rest
    else c :: normCRLF (d :: rest)

/-- Worker for `collapseWs`; the flag records whether the previous
character belonged to a whitespace run that has already been replaced. -/
def collapseWsAux : Bool → List Nat → List Nat
  | _, [] => []
  | inRun, c :: rest =>
    if isWsB c then
      if inRun then collapseWsAux true rest
      else 32 :: collapseWsAux true rest
    else c :: collapseWsAux false rest

/-- Model of `re.sub(r'\s+', ' ', s)`: replace each maximal whitespace
run by a single space. -/
def collapseWs (l : List Nat) : List Nat := collapseWsAux false l

/-- Model of `re.sub(r'^:\s*', '', s)`: remove one leading colon together
with the whitespace run that follows it. -/
def stripColonHead : List Nat → List Nat
  | 58 :: rest => rest.dropWhile isWsB
  | l => l

namespace Re

/-- Character classes appearing in the source regexes. -/
inductive CC
  /-- `.` under DOTALL: any character. -/
  | dotAll
  /-- `\s`. -/
  | ws
  /-- `[A-Za-z0-9\s]` (postcode pattern). -/
  | alnumWs
  /-- `[a-zA-Z0-9._%+-]` (email local part). -/
  | emailLocal
  /-- `[a-zA-Z0-9.-]` (email domain). -/
  | emailDomain
  /-- `[a-zA-Z]`. -/
  | alpha
  /-- a single literal character. -/
  | single (c : Nat)
deriving DecidableEq

def isDigitB (c : Nat) : Bool := 48 ≤ c && c ≤ 57
def isAlphaB (c : Nat) : Bool := (65 ≤ c && c ≤ 90) || (97 ≤ c && c ≤ 122)

/-- Membership of a character in a class. -/
def ccMatch : CC → Nat → Bool
  | .dotAll, _ => true
  | .ws, c => isWsB c
  | .alnumWs, c => isAlphaB c || isDigitB c || isWsB c
  | .emailLocal, c =>
      isAlphaB c || isDigitB c || c = 46 || c = 95 || c = 37 || c = 43 || c = 45
  | .emailDomain, c => isAlphaB c || isDigitB c || c = 46 || c = 45
  | .alpha, c => isAlphaB c
  | .single d, c => c = d

/-- Regex abstract syntax, covering exactly the constructs used in
`gmail_reader.py`. -/
inductive Regex
  /-- bounded repetition of a character class: `lo` to `hi` (`none` =
  unbounded) occurrences, greedy or lazy.  Covers `*`, `+`, `?`, `+?`,
  `{2,10}?`, `{2,}` — in the source every quantifier applies to a
  single character or class. -/
  | rep (cc : CC) (lo : Nat) (hi : Option Nat) (greedy : Bool)
  /-- a literal word such as `address` (case-insensitive when the
  IGNORECASE flag is set). -/
  | word (l : List Nat)
  | seq (r1 r2 : Regex)
  | alt (r1 r2 : Regex)
  /-- zero-width lookahead `(?=r)`. -/
  | look (r : Regex)
  /-- `^` under MULTILINE: start of text or just after a newline. -/
  | bol
  /-- `$` under MULTILINE: end of text or just before a newline. -/
  | eol
  /-- the capture group. -/
  | grp (r : Regex)

/-- Length of the maximal run of class characters at the head of `s`. -/
def runLen (cc : CC) : List Nat → Nat
  | [] => 0
  | c :: s => if ccMatch cc c then runLen cc s + 1 else 0

/-- A matcher state: the previously consumed character (for the anchors),
the remaining text, and the capture of group 1 if it has been set. -/
abbrev MState := Option Nat × List Nat × Option (List Nat)

/-- All `k` in `[lo, min hi n]` in priority order (descending when
greedy, ascending when lazy). -/
def repKs (lo : Nat) (hi : Option Nat) (greedy : Bool) (n : Nat) : List Nat :=
  let top := match hi with
    | none => n
    | some h => min h n
  if lo ≤ top then
    let asc := (List.range (top - lo + 1)).map (fun i => lo + i)
    if greedy then asc.reverse else asc
  else []

/-- States reached by repeating a character class. -/
def repStates (cc : CC) (lo : Nat) (hi : Option Nat) (greedy : Bool)
    (prev : Option Nat) (s : List Nat) : List MState :=
  (repKs lo hi greedy (runLen cc s)).map
    (fun k => (if k = 0 then prev else s[k-1]?, s.drop k, none))

def lowerIf (ci : Bool) (c : Nat) : Nat := if ci then asciiLower c else c

/-- Does the word `l` occur at the head of `s` (case-insensitively when
`ci` is set)? -/
def wordAtHead (ci : Bool) (l s : List Nat) : Bool :=
  (l.map (lowerIf ci)).isPrefixOf (s.map (lowerIf ci))

/-- Run a regex from a state, returning every reachable state in
backtracking priority order (head = the match Python commits to). -/
def mrun (ci : Bool) : Regex → Option Nat → List Nat → List MState
  | .rep cc lo hi g, prev, s => repStates cc lo hi g prev s
  | .word l, prev, s =>
      if wordAtHead ci l s then
        [(if l.length = 0 then prev else s[l.length - 1]?, s.drop l.length, none)]
      else []
  | .seq r1 r2, prev, s =>
      (mrun ci r1 prev s).flatMap (fun st =>
        (mrun ci r2 st.1 st.2.1).map (fun st2 => (st2.1, st2.2.1, st2.2.2 <|> st.2.2)))
  | .alt r1 r2, prev, s => mrun ci r1 prev s ++ mrun ci r2 prev s
  | .look r, prev, s =>
      if (mrun ci r prev s).isEmpty then [] else [(prev, s, none)]
  | .bol, prev, s =>
      match prev with
      | none => [(none, s, none)]
      | some c => if c = 10 then [(some c, s, none)] else []
  | .eol, prev, s =>
      match s with
      | [] => [(prev, s, none)]
      | c :: _ => if c = 10 then [(prev, s, none)] else []
  | .grp r, prev, s =>
      (mrun ci r prev s).map
        (fun st => (st.1, st.2.1, some (s.take (s.length - st.2.1.length))))

/-- Model of `re.search`: scan positions left to right, commit to the
first position at which the regex matches, and there to the
highest-priority match.  Returns `(whole match, group 1)`. -/
def searchAux (ci : Bool) (r : Regex) : Option Nat → List Nat →
    Option (List Nat × Option (List Nat))
  | prev, [] =>
    (mrun ci r prev []).head?.map (fun st => (([] : List Nat), st.2.2))
  | prev, c :: rest =>
    match (mrun ci r prev (c :: rest)).head? with
    | some st =>
      some ((c :: rest).take ((c :: rest).length - st.2.1.length), st.2.2)
    | none => searchAux ci r (some c) rest

def search (ci : Bool) (r : Regex) (s : List Nat) :
    Option (List Nat × Option (List Nat)) :=
  searchAux ci r none s

end Re

open Re

/-- Literal word regex from a string. -/
def rword (s : String) : Regex := .word (codes s)

/-- `\s*`. -/
def wsStar : Regex := .rep .ws 0 none true

/-- `:?`. -/
def colonOpt : Regex := .rep (.single 58) 0 (some 1) true

/-- `(.+?)` body (lazy, DOTALL). -/
def dotPlusLazy : Regex := .rep .dotAll 1 none false

/-- `(.+)` body (greedy, DOTALL). -/
def dotPlusGreedy : Regex := .rep .dotAll 1 none true

/-- Alternation `(?:w1|...|wn|$)` of label words followed by `$`. -/
def altEnds (ls : List String) : Regex :=
  ls.foldr (fun s r => .alt (rword s) r) .eol

/-- Lookahead `(?=\s*(?:w1|...|wn|$))`. -/
def boundary (ls : List String) : Regex :=
  .look (.seq wsStar (altEnds ls))

/-- Label prefix `label\s*:?\s*` shared by the labelled patterns. -/
def labelled (label : String) (body : Regex) : Regex :=
  .seq (rword label) (.seq wsStar (.seq colonOpt (.seq wsStar body)))

/-- Pattern `name\s*:?\s*(.+?)(?=\s*(?:address|postcode|skills|other|from|subject|$))`. -/
def namePat1 : Regex :=
  labelled "name" (.seq (.grp dotPlusLazy)
    (boundary ["address", "postcode", "skills", "other", "from", "subject"]))

/-- Pattern `^(.+?)(?=\s*(?:address|postcode|skills|other|from|subject|$))`. -/
def namePat2 : Regex :=
  .seq .bol (.seq (.grp dotPlusLazy)
    (boundary ["address", "postcode", "skills", "other", "from", "subject"]))

/-- Pattern `address\s*:?\s*(.+?)(?=\s*(?:postcode|skills|other|from|subject|$))`. -/
def addrPat1 : Regex :=
  labelled "address" (.seq (.grp dotPlusLazy)
    (boundary ["postcode", "skills", "other", "from", "subject"]))

/-- Pattern `address\s*:?\s*(.+?)(?=\s*postcode\s*:)`. -/
def addrPat2 : Regex :=
  labelled "address" (.seq (.grp dotPlusLazy)
    (.look (.seq wsStar (.seq (rword "postcode") (.seq wsStar (.word [58]))))))

/-- Pattern `postcode\s*:?\s*([A-Za-z0-9\s]{2,10}?)(?=\s*(?:skills|other|from|subject|$))`. -/
def pcPat1 : Regex :=
  labelled "postcode" (.seq (.grp (.rep .alnumWs 2 (some 10) false))
    (boundary ["skills", "other", "from", "subject"]))

/-- Pattern `postcode\s*:?\s*([A-Za-z0-9\s]{2,10})`. -/
def pcPat2 : Regex :=
  labelled "postcode" (.grp (.rep .alnumWs 2 (some 10) true))

/-- Pattern `skills\s*:?\s*(.+?)(?=\s*(?:other|from|subject|$))`. -/
def skPat1 : Regex :=
  labelled "skills" (.seq (.grp dotPlusLazy)
    (boundary ["other", "from", "subject"]))

/-- Pattern `skills\s*:?\s*(.+)`. -/
def skPat2 : Regex :=
  labelled "skills" (.grp dotPlusGreedy)

/-- Pattern `other\s*:?\s*(.+?)(?=\s*(?:from|subject|$))`. -/
def otPat1 : Regex :=
  labelled "other" (.seq (.grp dotPlusLazy) (boundary ["from", "subject"]))

/-- Pattern `other\s*:?\s*(.+)`. -/
def otPat2 : Regex :=
  labelled "other" (.grp dotPlusGreedy)

/-- Post-processing of a captured value in `_parse_contact_info`:
`value = match.group(1).strip()`, then `re.sub(r'^:\s*', '', value)`,
then `re.sub(r'\s+', ' ', value)`. -/
def postValue (v : List Nat) : List Nat :=
  collapseWs (stripColonHead (stripWs v))

/-- Inner loop of `_parse_contact_info` for one field: try the ordered
pattern list, commit to the first match. -/
def fieldValue (pats : List Regex) (cleaned : List Nat) : List Nat :=
  match pats with
  | [] => []
  | p :: rest =>
    match search true p cleaned with
    | some (_, cap) => postValue (cap.getD [])
    | none => fieldValue rest cleaned

/-- Cleaning step of `_parse_contact_info`:
`re.sub(r'\r\n', '\n', email_body.strip())`. -/
def cleanedOf (body : List Nat) : List Nat := normCRLF (stripWs body)

/-- Model of `GmailReader._parse_contact_info`: the returned dict as an
association list in insertion order. -/
def parse_contact_info (body : List Nat) : List (List Nat × List Nat) :=
  let cl := cleanedOf body
  [ (codes "name", fieldValue [namePat1, namePat2] cl),
    (codes "address", fieldValue [addrPat1, addrPat2] cl),
    (codes "postcode", fieldValue [pcPat1, pcPat2] cl),
    (codes "skills", fieldValue [skPat1, skPat2] cl),
    (codes "other", fieldValue [otPat1, otPat2] cl) ]

/-- Pattern `[a-zA-Z0-9._%+-]+@[a-zA-Z0-9.-]+\.[a-zA-Z]{2,}`. -/
def emailPat : Regex :=
  .seq (.rep .emailLocal 1 none true)
    (.seq (.word [64])
      (.seq (.rep .emailDomain 1 none true)
        (.seq (.word [46]) (.rep .alpha 2 none true))))

/-- Model of `GmailReader._extract_email_address`. -/
def extract_email_address (from_header : List Nat) : List Nat :=
  if from_header = [] then codes "Unknown"
  else
    match search false emailPat from_header with
    | some (m, _) => stripWs (m.map asciiLower)
    | none => from_header

/-- Model of `GmailReader._extract_header_value` over a list of
`(name, value)` headers. -/
def extract_header_value (headers : List (List Nat × List Nat))
    (header_name : List Nat) : List Nat :=
  match headers with
  | [] => codes "Unknown"
  | (n, v) :: rest =>
    if n.map asciiLower = header_name.map asciiLower then v
    else extract_header_value rest header_name

/-- Case-insensitive equality of a header's name with a queried name
(the comparison `header["name"].lower() == header_name.lower()`). -/
def sameNameCI (h : List Nat × List Nat) (header_name : List Nat) : Prop :=
  h.1.map asciiLower = header_name.map asciiLower

instance (h : List Nat × List Nat) (n : List Nat) : Decidable (sameNameCI h n) := by
  unfold sameNameCI; infer_instance

/-! Deduplicating store: `create_contacts_database` declares
`message_id TEXT UNIQUE`, and `save_contacts_to_database` inserts with
`INSERT OR IGNORE`, counting `cursor.rowcount > 0`. -/

/-- A record of the `contacts` table of `create_contacts_database`, and
equally a contact dict passed to `save_contacts_to_database` (the
`contact_info.get(..., '')` defaults make all nine fields total
strings).  The auto-assigned `id` and `created_at` columns play no role
in the dedup logic. -/
structure ContactRec where
  name : List Nat
  address : List Nat
  postcode : List Nat
  skills : List Nat
  other : List Nat
  email_sender : List Nat
  email_subject : List Nat
  email_date : List Nat
  message_id : List Nat
deriving DecidableEq, Repr

/-- One `INSERT OR IGNORE INTO contacts`: the row is silently dropped
exactly when an existing row carries the same `message_id` (the UNIQUE
constraint); the Bool is `cursor.rowcount > 0`. -/
def insertOrIgnore (db : List ContactRec) (c : ContactRec) :
    List ContactRec × Bool :=
  if db.any (fun r => r.message_id == c.message_id) then (db, false)
  else (db ++ [c], true)

/-- Loop body of `save_contacts_to_database`.  `fault c = true` models
`cursor.execute` raising an `sqlite3.Error` other than a uniqueness
violation for contact `c` (uniqueness violations never raise, because
the INSERT uses OR IGNORE).  The `try` block wraps the whole loop, so a
raised error leaves the loop at once; the third component records that
the loop was aborted by an error.  Returns
(count of genuine insertions, table at loop exit, aborted?). -/
def saveLoop (fault : ContactRec → Bool) :
    List ContactRec → List ContactRec → Nat × List ContactRec × Bool
  | [], db => (0, db, false)
  | c :: rest, db =>
    if fault c then (0, db, true)
    else
      ((if (insertOrIgnore db c).2 then 1 else 0) +
          (saveLoop fault rest (insertOrIgnore db c).1).1,
        (saveLoop fault rest (insertOrIgnore db c).1).2.1,
        (saveLoop fault rest (insertOrIgnore db c).1).2.2)

/-- Model of `save_contacts_to_database`.  On a normal exit the
`with sqlite3.connect(...)` block commits; when an `sqlite3.Error`
escapes the loop it rolls the open transaction back, so the table
reverts to its state at entry while the already-accumulated
`saved_count` is still returned. -/
def save_contacts_to_database (fault : ContactRec → Bool)
    (contacts : List ContactRec) (db : List ContactRec) :
    Nat × List ContactRec :=
  let res := saveLoop fault contacts db
  (res.1, if res.2.2 then db else res.2.1)

/-- The no-fault oracle: every `cursor.execute` succeeds (the only
storage interaction is the dedup constraint, which OR IGNORE absorbs). -/
def noFault : ContactRec → Bool := fun _ => false

/-! Read side (`app.py`): `get_contacts` runs
`SELECT * FROM contacts WHERE name LIKE ? OR address LIKE ? OR postcode
LIKE ? OR skills LIKE ? OR other LIKE ? OR email_sender LIKE ?
ORDER BY created_at DESC` with each parameter `'%' + term + '%'`. -/

/-- A row as read back by `get_contacts` (`app.py` schema: positional
columns id, name, address, postcode, skills, other, email_sender,
email_subject, email_date, created_at). -/
structure QueryRow where
  id : Nat
  name : List Nat
  address : List Nat
  postcode : List Nat
  skills : List Nat
  other : List Nat
  email_sender : List Nat
  email_subject : List Nat
  email_date : List Nat
  created_at : Nat
deriving DecidableEq, Repr

/-- SQLite `LIKE` pattern matching: `%` matches any sequence, `_`
matches exactly one character, and ordinary characters compare
case-insensitively on ASCII letters (SQLite's default LIKE). -/
def likeMatch : List Nat → List Nat → Bool
  | [], s => s.isEmpty
  | p :: ps, s =>
    if p = 37 then s.tails.any (fun tl => likeMatch ps tl)
    else
      match s with
      | [] => false
      | c :: s' =>
        (p == 95 || asciiLower c == asciiLower p) && likeMatch ps s'

/-- The six columns the WHERE clause of `get_contacts` tests. -/
def rowFields (r : QueryRow) : List (List Nat) :=
  [r.name, r.address, r.postcode, r.skills, r.other, r.email_sender]

/-- WHERE clause of the search query: some column LIKE `'%term%'`. -/
def likeAnyField (term : List Nat) (r : QueryRow) : Bool :=
  (rowFields r).any (fun f => likeMatch (37 :: (term ++ [37])) f)

/-- Comparator realising `ORDER BY created_at DESC`. -/
def newestFirst (a b : QueryRow) : Bool :=
  decide (b.created_at ≤ a.created_at)

/-- Model of `get_contacts(search_term=None)`: the stored rows, filtered
by the LIKE clause when a non-empty search term is given (`if
search_term:` is False for both `None` and the empty string), ordered
newest-first by `created_at`. -/
def get_contacts (db : List QueryRow) (search_term : Option (List Nat)) :
    List QueryRow :=
  let rows := match search_term with
    | none => db
    | some t => if t = [] then db else db.filter (likeAnyField t)
  rows.mergeSort newestFirst

/-- Case-insensitive substring occurrence (the spec's reading of the
search semantics): some suffix of `s` starts with `t`, comparing
ASCII-lower-cased characters. -/
def ciSubstr (t s : List Nat) : Bool :=
  s.tails.any (fun tl => (t.map asciiLower).isPrefixOf (tl.map asciiLower))

/-! Polling orchestrator (`app.py`): `start_processing`,
`background_email_processing`.  Time is discrete: `time.sleep(1)`
advances the clock by one second, everything else is instantaneous; a
stop request recorded at time `stop` makes every flag read at a time
`t ≥ stop` return False. -/

/-- Model of the `start_processing` route over the `is_processing`
flag: (reported status, new flag value, was a thread spawned?). -/
def start_processing (is_processing : Bool) : List Nat × Bool × Bool :=
  if is_processing then (codes "already_running", is_processing, false)
  else (codes "started", true, true)

/-- Inner wait of `background_email_processing`:
`for _ in range(300): if not is_processing: break; time.sleep(1)`.
Each of the `n` ticks reads the flag at the current clock `t` and, when
it is still set, sleeps one second.  Returns the clock after the loop. -/
def waitTicks (stop : Nat) : Nat → Nat → Nat
  | 0, t => t
  | n + 1, t => if t < stop then waitTicks stop n (t + 1) else t

/-- Clock values at which the `while is_processing:` loop begins a poll
iteration, starting at clock `t`, observing at most `fuel` iterations.
The poll body itself is instantaneous in this model; after it the loop
waits through `waitTicks stop 300`. -/
def pollStarts (stop : Nat) : Nat → Nat → List Nat
  | 0, _ => []
  | fuel + 1, t =>
    if t < stop then t :: pollStarts stop fuel (waitTicks stop 300 t)
    else []

/-! Body decoding (`_decode_email_body`): url-safe base64 and strict
UTF-8, as performed by `base64.urlsafe_b64decode(...)` followed by
`.decode("utf-8")`, with the enclosing try/except. -/

/-- Character of the standard base64 alphabet for a sextet value. -/
def b64Char (v : Nat) : Nat :=
  if v < 26 then 65 + v
  else if v < 52 then 97 + (v - 26)
  else if v < 62 then 48 + (v - 52)
  else if v = 62 then 43
  else 47

/-- Sextet value of a standard-alphabet character (`none` outside the
alphabet; non-alphabet characters are discarded by Python's default
non-validating decoder). -/
def b64Val (c : Nat) : Option Nat :=
  if 65 ≤ c ∧ c ≤ 90 then some (c - 65)
  else if 97 ≤ c ∧ c ≤ 122 then some (26 + (c - 97))
  else if 48 ≤ c ∧ c ≤ 57 then some (52 + (c - 48))
  else if c = 43 then some 62
  else if c = 47 then some 63
  else none

/-- Translation applied by `base64.urlsafe_b64encode`: `+`→`-`, `/`→`_`. -/
def toUrlsafe (c : Nat) : Nat :=
  if c = 43 then 45 else if c = 47 then 95 else c

/-- Translation applied by `base64.urlsafe_b64decode`: `-`→`+`, `_`→`/`. -/
def toStd (c : Nat) : Nat :=
  if c = 45 then 43 else if c = 95 then 47 else c

/-- `base64.b64encode` over a byte list (three bytes per quad, padded
with `=`). -/
def b64encodeBytes : List Nat → List Nat
  | [] => []
  | [a] => [b64Char (a / 4), b64Char (a % 4 * 16), 61, 61]
  | [a, b] =>
      [b64Char (a / 4), b64Char (a % 4 * 16 + b / 16), b64Char (b % 16 * 4), 61]
  | a :: b :: c :: rest =>
      b64Char (a / 4) :: b64Char (a % 4 * 16 + b / 16) ::
        b64Char (b % 16 * 4 + c / 64) :: b64Char (c % 64) :: b64encodeBytes rest

/-- Model of `base64.urlsafe_b64encode` on a byte list. -/
def urlsafe_b64encode (bs : List Nat) : List Nat :=
  (b64encodeBytes bs).map toUrlsafe

/-- The pending quad of the `a2b_base64` scan: zero to three sextet
values accumulated toward the next group of four. -/
inductive QuadState
  | q0
  | q1 (a : Nat)
  | q2 (a b : Nat)
  | q3 (a b c : Nat)
deriving DecidableEq, Repr

/-- Scan of `binascii.a2b_base64` (non-strict mode, as used by
`base64.b64decode`): characters outside the alphabet are discarded; a
quad completing emits three bytes; a `=` at quad position 3, or at quad
position 2 with a second pending pad, ends decoding — emitting two
bytes (position 3) or one (position 2) and discarding the rest; other
`=` are skipped but counted until the next data character resets the
count.  `none` models `binascii.Error` for a dangling quad at the end
of the input. -/
def a2bLoop : List Nat → QuadState → Nat → Option (List Nat)
  | [], .q0, _ => some []
  | [], .q1 _, _ => none
  | [], .q2 _ _, _ => none
  | [], .q3 _ _ _, _ => none
  | c :: rest, q, pads =>
    if c = 61 then
      match q with
      | .q0 => a2bLoop rest .q0 (pads + 1)
      | .q1 a => a2bLoop rest (.q1 a) (pads + 1)
      | .q2 a b =>
        if 2 ≤ pads + 1 then some [a * 4 + b / 16]
        else a2bLoop rest (.q2 a b) (pads + 1)
      | .q3 a b cq => some [a * 4 + b / 16, b % 16 * 16 + cq / 4]
    else
      match b64Val c with
      | none => a2bLoop rest q pads
      | some v =>
        match q with
        | .q0 => a2bLoop rest (.q1 v) 0
        | .q1 a => a2bLoop rest (.q2 a v) 0
        | .q2 a b => a2bLoop rest (.q3 a b v) 0
        | .q3 a b cq =>
          (a2bLoop rest .q0 0).map (fun out =>
            (a * 4 + b / 16) :: (b % 16 * 16 + cq / 4) ::
              (cq % 4 * 64 + v) :: out)

/-- Model of `base64.urlsafe_b64decode`: translate `-`→`+`, `_`→`/`,
then run the `a2b_base64` scan. -/
def urlsafe_b64decode (s : List Nat) : Option (List Nat) :=
  a2bLoop (s.map toStd) .q0 0

/-- Continuation byte test (`0x80..0xBF`). -/
def contB (b : Nat) : Bool := 128 ≤ b && b < 192

/-- UTF-8 encoding of one Unicode scalar value. -/
def utf8EncodeChar (c : Nat) : List Nat :=
  if c < 128 then [c]
  else if c < 2048 then [192 + c / 64, 128 + c % 64]
  else if c < 65536 then [224 + c / 4096, 128 + c / 64 % 64, 128 + c % 64]
  else [240 + c / 262144, 128 + c / 4096 % 64, 128 + c / 64 % 64, 128 + c % 64]

/-- Model of `str.encode("utf-8")` over the scalar values of a string. -/
def utf8Encode (cps : List Nat) : List Nat := cps.flatMap utf8EncodeChar

/-- Byte-at-a-time scan of strict UTF-8 decoding: `n` pending
continuation bytes, `v` the value accumulated so far, and `[lo, hi)`
the admissible range of the next byte (narrowed after the lead byte to
reject overlong forms, surrogates and values beyond U+10FFFF, exactly
as Python's strict decoder does). -/
def utf8Run : List Nat → Nat → Nat → Nat → Nat → Option (List Nat)
  | [], n, _, _, _ => if n = 0 then some [] else none
  | b :: rest, n, v, lo, hi =>
    if n = 0 then
      if b < 128 then (utf8Run rest 0 0 0 0).map (fun cs => b :: cs)
      else if b < 194 then none
      else if b < 224 then utf8Run rest 1 (b - 192) 128 192
      else if b = 224 then utf8Run rest 2 0 160 192
      else if b = 237 then utf8Run rest 2 13 128 160
      else if b < 240 then utf8Run rest 2 (b - 224) 128 192
      else if b = 240 then utf8Run rest 3 0 144 192
      else if b = 244 then utf8Run rest 3 4 128 144
      else if b < 245 then utf8Run rest 3 (b - 240) 128 192
      else none
    else
      if lo ≤ b ∧ b < hi then
        if n = 1 then
          (utf8Run rest 0 0 0 0).map (fun cs => (v * 64 + (b - 128)) :: cs)
        else utf8Run rest (n - 1) (v * 64 + (b - 128)) 128 192
      else none

/-- Model of strict `bytes.decode("utf-8")`: `none` models Python
raising `UnicodeDecodeError` (stray or missing continuation bytes,
overlong forms, surrogates, values beyond U+10FFFF). -/
def utf8Decode (bs : List Nat) : Option (List Nat) := utf8Run bs 0 0 0 0

/-- A Unicode scalar value (what one character of a Python `str` that
UTF-8-encodes cleanly carries). -/
def validScalar (c : Nat) : Prop :=
  c < 1114112 ∧ ¬ (55296 ≤ c ∧ c < 57344)

instance (c : Nat) : Decidable (validScalar c) := by
  unfold validScalar; infer_instance

/-- A message part as consumed by `_decode_email_body`: the declared
`mimeType` and the optional `body.data` field. -/
structure Part where
  mimeType : List Nat
  dataB : Option (List Nat)
deriving DecidableEq, Repr

/-- A message payload: optional inline `body.data` and optional list of
`parts`. -/
structure Payload where
  dataB : Option (List Nat)
  parts : Option (List Part)
deriving DecidableEq, Repr

/-- One `base64.urlsafe_b64decode(data).decode("utf-8")` under the
enclosing try/except: any failure yields the sentinel `err`. -/
def tryDecode (dataB err : List Nat) : List Nat :=
  match urlsafe_b64decode dataB with
  | none => err
  | some bs =>
    match utf8Decode bs with
    | none => err
    | some cps => cps

/-- The `for part in payload["parts"]` loop: decode the first part whose
`mimeType` is `text/plain` and whose body carries `data`; fall through
to the "no readable content" sentinel.  (`if part["mimeType"] ==
"text/plain" and "data" in part["body"]`). -/
def scanParts : List Part → List Nat
  | [] => codes "No readable content found"
  | pt :: rest =>
    match pt.dataB with
    | some d =>
      if pt.mimeType = codes "text/plain" then
        tryDecode d (codes "Error decoding email part")
      else scanParts rest
    | none => scanParts rest

/-- Model of `GmailReader._decode_email_body`. -/
def decode_email_body (p : Payload) : List Nat :=
  match p.dataB with
  | some d => tryDecode d (codes "Error decoding email body")
  | none =>
    match p.parts with
    | some parts => scanParts parts
    | none => codes "No readable content found"

/-- Readability of a part, as the loop tests it. -/
def readablePart (pt : Part) : Prop :=
  pt.mimeType = codes "text/plain" ∧ pt.dataB.isSome

instance (pt : Part) : Decidable (readablePart pt) := by
  unfold readablePart; infer_instance

/-! Support notions for reasoning about the fallback name pattern. -/

/-- The label words recognised by the extraction patterns. -/
def labelStrings : List String :=
  ["name", "address", "postcode", "skills", "other", "from", "subject"]

/-- Case-insensitive occurrence of the word `w` somewhere in `s`. -/
def ciOccurs (w s : List Nat) : Bool :=
  s.tails.any (fun tl => Re.wordAtHead true w tl)

/-- No recognised label occurs (case-insensitively) in `s`. -/
def noLabels (s : List Nat) : Prop :=
  ∀ l ∈ labelStrings, ciOccurs (codes l) s = false

instance (s : List Nat) : Decidable (noLabels s) := by
  unfold noLabels; infer_instance

/-- The first line of a text: everything before the first newline. -/
def firstLine (s : List Nat) : List Nat := s.takeWhile (fun c => c ≠ 10)

/-- Whether a position is an end of line in the MULTILINE sense: end of
text or just before a newline. -/
def lineEndB : List Nat → Bool
  | [] => true
  | c :: _ => c == 10

/-- Does skipping some of the leading whitespace reach an end of line?
This is when the lookahead of the fallback name pattern succeeds in the
absence of label words. -/
def lookOKb (s : List Nat) : Bool :=
  (List.range (Re.runLen .ws s + 1)).any (fun j => lineEndB (s.drop j))

/-- A list of whitespace characters only. -/
def wsOnly (l : List Nat) : Bool := l.all isWsB

/-! Concrete fixtures used by counterexamples and witnesses. -/

/-- A fault oracle that fails the insert of the record whose
`message_id` is `"m1"`. -/
def c8fault : ContactRec → Bool := fun c => c.message_id == codes "m1"

/-- A contact whose insert faults under `c8fault`. -/
def c8rec1 : ContactRec := ⟨[], [], [], [], [], [], [], [], codes "m1"⟩

/-- A fresh contact placed after the faulting one in the batch. -/
def c8rec2 : ContactRec := ⟨[], [], [], [], [], [], [], [], codes "m2"⟩

/-- A stored row whose `name` is `"axb"`. -/
def c7wildRow : QueryRow := ⟨1, codes "axb", [], [], [], [], [], [], [], 5⟩

/-- A stored row whose `skills` field contains `"DevOps"`. -/
def c7devRow : QueryRow :=
  ⟨1, codes "Jane", [], [], codes "DevOps engineer", [], [], [], [], 7⟩

/-- An unrelated stored row. -/
def c7otherRow : QueryRow :=
  ⟨2, codes "Bob", [], [], codes "carpentry", [], [], [], [], 3⟩

end EmailDB

namespace EmailDB

/-- C1: on the canonical-order body
`"Name: Jane Doe\nAddress: 2 Green Drive\nPostcode: PR1 0RD\nSkills: DevOps\nOther: N/A"`,
`_parse_contact_info` returns exactly the mapping
name ↦ "Jane Doe", address ↦ "2 Green Drive", postcode ↦ "PR1 0RD",
skills ↦ "DevOps", other ↦ "N/A". -/
theorem claim_C1_parse_canonical_order :
    parse_contact_info
      (codes "Name: Jane Doe\nAddress: 2 Green Drive\nPostcode: PR1 0RD\nSkills: DevOps\nOther: N/A") =
      [ (codes "name", codes "Jane Doe"),
        (codes "address", codes "2 Green Drive"),
        (codes "postcode", codes "PR1 0RD"),
        (codes "skills", codes "DevOps"),
        (codes "other", codes "N/A") ] := by decide

/-- C3: for every body text, `_parse_contact_info` returns a mapping with
exactly the five keys name, address, postcode, skills, other, each bound
to a string (the function is total, so it never raises); and a field whose
patterns all fail to match is bound to the empty string. -/
theorem claim_C3_parse_total_keys :
    (∀ body : List Nat, ∃ n a p sk o : List Nat,
        parse_contact_info body =
          [ (codes "name", n), (codes "address", a), (codes "postcode", p),
            (codes "skills", sk), (codes "other", o) ]) ∧
    (∀ (pats : List Re.Regex) (cleaned : List Nat),
        (∀ p ∈ pats, Re.search true p cleaned = none) →
        fieldValue pats cleaned = []) := by
  constructor
  · intro body
    exact ⟨_, _, _, _, _, rfl⟩
  · intro pats cleaned h
    induction pats with
    | nil => rfl
    | cons p rest ih =>
      have hp := h p (List.mem_cons_self p rest)
      simp only [fieldValue, hp]
      exact ih (fun q hq => h q (List.mem_cons_of_mem p hq))

/-- Witness for C3: a concrete field whose patterns all fail is empty. -/
theorem claim_C3_witness : fieldValue [namePat1] (codes "zz") = [] :=
  claim_C3_parse_total_keys.2 [namePat1] (codes "zz") (by decide)

/-- C4: `_extract_email_address` extracts the first email-shaped match
(lower-cased, stripped) from `"Jane Doe <jane@example.com>"`, returns the
sentinel `"Unknown"` on the empty header, and returns a non-empty
unmatched header such as `"not-an-email"` verbatim. -/
theorem claim_C4_extract_email_address_behaviors :
    extract_email_address (codes "Jane Doe <jane@example.com>") =
        codes "jane@example.com" ∧
    extract_email_address (codes "") = codes "Unknown" ∧
    extract_email_address (codes "not-an-email") = codes "not-an-email" :=
  ⟨by decide, by decide, by decide⟩

/-- C6: `_extract_header_value` matches the header name
case-insensitively and returns the value of the first matching header;
when no header matches (in particular on the empty header list) it
returns the sentinel `"Unknown"`; being total, it never fails. -/
theorem claim_C6_extract_header :
    (∀ (pre post : List (List Nat × List Nat)) (h : List Nat × List Nat)
        (name : List Nat),
        (∀ g ∈ pre, ¬ sameNameCI g name) → sameNameCI h name →
        extract_header_value (pre ++ h :: post) name = h.2) ∧
    (∀ (headers : List (List Nat × List Nat)) (name : List Nat),
        (∀ g ∈ headers, ¬ sameNameCI g name) →
        extract_header_value headers name = codes "Unknown") := by
  constructor
  · intro pre post h name hpre hmatch
    induction pre with
    | nil =>
      obtain ⟨n, v⟩ := h
      simp only [sameNameCI] at hmatch
      simp only [List.nil_append, extract_header_value, if_pos hmatch]
    | cons g pre' ih =>
      obtain ⟨n, v⟩ := g
      have hg := hpre ⟨n, v⟩ (List.mem_cons_self _ _)
      simp only [sameNameCI] at hg
      simp only [List.cons_append, extract_header_value, if_neg hg]
      exact ih (fun q hq => hpre q (List.mem_cons_of_mem _ hq))
  · intro headers name hnone
    induction headers with
    | nil => rfl
    | cons g rest ih =>
      obtain ⟨n, v⟩ := g
      have hg := hnone ⟨n, v⟩ (List.mem_cons_self _ _)
      simp only [sameNameCI] at hg
      simp only [extract_header_value, if_neg hg]
      exact ih (fun q hq => hnone q (List.mem_cons_of_mem _ hq))

/-- Witness for C6: a concrete lookup hitting the first matching header
past a non-matching one, and a concrete miss returning `"Unknown"`. -/
theorem claim_C6_extract_header_witness :
    extract_header_value
      [(codes "Date", codes "d"), (codes "From", codes "a@b.co")]
      (codes "fRoM") = codes "a@b.co" ∧
    extract_header_value [(codes "Date", codes "d")] (codes "Subject") =
      codes "Unknown" := by
  constructor
  · exact claim_C6_extract_header.1 [(codes "Date", codes "d")] []
      (codes "From", codes "a@b.co") (codes "fRoM") (by decide) (by decide)
  · exact claim_C6_extract_header.2 [(codes "Date", codes "d")]
      (codes "Subject") (by decide)

/-- C2: saving a batch of one contact into a fresh store inserts it
(count 1); saving the same contact again inserts nothing (count 0) and
leaves the row count unchanged — INSERT OR IGNORE keyed on the
`message_id` UNIQUE constraint. -/
theorem claim_C2_upsert_dedup (c : ContactRec) :
    (save_contacts_to_database noFault [c] []).1 = 1 ∧
    (save_contacts_to_database noFault [c]
        (save_contacts_to_database noFault [c] []).2).1 = 0 ∧
    (save_contacts_to_database noFault [c]
        (save_contacts_to_database noFault [c] []).2).2.length =
      (save_contacts_to_database noFault [c] []).2.length := by
  simp [save_contacts_to_database, saveLoop, insertOrIgnore, noFault]

/-- The no-fault run of the save loop is never aborted. -/
theorem saveLoop_noFault_ok (cs db : List ContactRec) :
    (saveLoop noFault cs db).2.2 = false := by
  induction cs generalizing db with
  | nil => rfl
  | cons c rest ih => simp [saveLoop, noFault, ih]

/-- Length bookkeeping of the save loop: the table at loop exit has
grown by exactly the returned count. -/
theorem saveLoop_length (fault : ContactRec → Bool)
    (cs db : List ContactRec) :
    (saveLoop fault cs db).2.1.length = db.length + (saveLoop fault cs db).1 := by
  induction cs generalizing db with
  | nil => simp [saveLoop]
  | cons c rest ih =>
    by_cases hf : fault c
    · simp [saveLoop, hf]
    · by_cases hdup : db.any (fun r => r.message_id == c.message_id)
      · simp [saveLoop, hf, insertOrIgnore, hdup, ih]
      · simp [saveLoop, hf, insertOrIgnore, hdup, ih]
        omega

/-- The save loop never removes rows. -/
theorem saveLoop_mono (fault : ContactRec → Bool)
    (cs db : List ContactRec) :
    db ⊆ (saveLoop fault cs db).2.1 := by
  induction cs generalizing db with
  | nil => simp [saveLoop]
  | cons c rest ih =>
    by_cases hf : fault c
    · simp [saveLoop, hf]
    · by_cases hdup : db.any (fun r => r.message_id == c.message_id)
      · simpa [saveLoop, hf, insertOrIgnore, hdup] using ih db
      · intro x hx
        have h2 := ih (db ++ [c]) (List.mem_append_left _ hx)
        simpa [saveLoop, hf, insertOrIgnore, hdup] using h2

/-- In a no-fault run every contact of the batch is processed: after the
loop some row carries its `message_id`. -/
theorem saveLoop_processes (cs db : List ContactRec) :
    ∀ c ∈ cs, ∃ r ∈ (saveLoop noFault cs db).2.1,
      r.message_id = c.message_id := by
  induction cs generalizing db with
  | nil => simp
  | cons c rest ih =>
    intro d hd
    rcases List.mem_cons.1 hd with hd | hd
    · subst hd
      by_cases hdup : db.any (fun r => r.message_id == d.message_id)
      · rcases List.any_eq_true.1 hdup with ⟨r, hr, hrid⟩
        exact ⟨r, saveLoop_mono _ _ _ hr, by simpa using hrid⟩
      · refine ⟨d, ?_, rfl⟩
        have : d ∈ db ++ [d] := List.mem_append_right _ (by simp)
        have hsub := saveLoop_mono noFault rest (db ++ [d]) this
        simpa [saveLoop, noFault, insertOrIgnore, hdup] using hsub
    · by_cases hdup : db.any (fun r => r.message_id == c.message_id)
      · simpa [saveLoop, noFault, insertOrIgnore, hdup] using
          ih db d hd
      · simpa [saveLoop, noFault, insertOrIgnore, hdup] using
          ih (db ++ [c]) d hd

/-- A fault on record `c` aborts the loop: the abort flag is set and the
returned count is the count the no-fault loop accumulates over the
records before `c`. -/
theorem saveLoop_abort (fault : ContactRec → Bool)
    (c : ContactRec) (post : List ContactRec) (hc : fault c = true) :
    ∀ (pre db : List ContactRec), (∀ q ∈ pre, fault q = false) →
    (saveLoop fault (pre ++ c :: post) db).2.2 = true ∧
    (saveLoop fault (pre ++ c :: post) db).1 =
      (saveLoop noFault pre db).1 := by
  intro pre
  induction pre with
  | nil => intro db _; simp [saveLoop, hc]
  | cons q pre' ih =>
    intro db hpre
    have hq : fault q = false := hpre q (List.mem_cons_self _ _)
    have ihq := ih (insertOrIgnore db q).1
      (fun x hx => hpre x (List.mem_cons_of_mem _ hx))
    simp [saveLoop, hq, noFault, ihq.1, ihq.2]

/-- C8 counterexample: in a batch whose first record's insert raises a
storage fault, the second record is NOT processed — the function returns
count 0 and the store stays empty, against the claim that the remaining
records of the batch are still saved. -/
theorem claim_C8_counterexample :
    save_contacts_to_database c8fault [c8rec1, c8rec2] [] = (0, []) ∧
    ¬ ∃ r ∈ (save_contacts_to_database c8fault [c8rec1, c8rec2] []).2,
        r.message_id = c8rec2.message_id := by
  constructor
  · decide
  · decide

/-- C8 amended: a uniqueness-constraint violation is not an error (the
row is silently ignored, not counted, and the batch continues: every
record of a no-fault batch is processed and the count is exactly the
number of genuinely inserted rows); but any other storage fault aborts
the whole remaining batch: the open transaction is rolled back to the
state at entry and the function returns the count accumulated before
the fault. -/
theorem claim_C8_fault_aborts_batch :
    (∀ (contacts db : List ContactRec),
      (∀ c ∈ contacts,
        ∃ r ∈ (save_contacts_to_database noFault contacts db).2,
          r.message_id = c.message_id) ∧
      (save_contacts_to_database noFault contacts db).2.length =
        db.length + (save_contacts_to_database noFault contacts db).1) ∧
    (∀ (fault : ContactRec → Bool) (pre post db : List ContactRec)
        (c : ContactRec),
      (∀ q ∈ pre, fault q = false) → fault c = true →
      save_contacts_to_database fault (pre ++ c :: post) db =
        ((save_contacts_to_database noFault pre db).1, db)) := by
  constructor
  · intro contacts db
    constructor
    · intro c hc
      have h := saveLoop_processes contacts db c hc
      simpa [save_contacts_to_database, saveLoop_noFault_ok] using h
    · have h := saveLoop_length noFault contacts db
      simpa [save_contacts_to_database, saveLoop_noFault_ok] using h
  · intro fault pre post db c hpre hc
    have h := saveLoop_abort fault c post hc pre db hpre
    simp [save_contacts_to_database, h.1, h.2, saveLoop_noFault_ok]

/-- Witness for C8 amended: a concrete no-fault batch with a duplicate,
and a concrete faulting batch that aborts and rolls back. -/
theorem claim_C8_fault_aborts_batch_witness :
    (∃ r ∈ (save_contacts_to_database noFault [c8rec1, c8rec1] []).2,
      r.message_id = c8rec1.message_id) ∧
    save_contacts_to_database c8fault ([c8rec2] ++ c8rec1 :: []) [] =
      ((save_contacts_to_database noFault [c8rec2] []).1, []) := by
  constructor
  · exact ((claim_C8_fault_aborts_batch.1 [c8rec1, c8rec1] []).1 c8rec1
      (by decide))
  · exact claim_C8_fault_aborts_batch.2 c8fault [c8rec2] [] [] c8rec1
      (by decide) (by decide)

/-- A wildcard-free LIKE pattern followed by `%` tests a
case-insensitive prefix. -/
theorem likeMatch_lit_pct (p : List Nat)
    (hp : ∀ x ∈ p, x ≠ 37 ∧ x ≠ 95) :
    ∀ s, likeMatch (p ++ [37]) s =
      (p.map asciiLower).isPrefixOf (s.map asciiLower) := by
  induction p with
  | nil =>
    intro s
    have hl : likeMatch [37] s = true := by
      simp only [likeMatch, if_true, reduceIte]
      rw [List.any_eq_true]
      exact ⟨[], (List.mem_tails _ _).2 (List.nil_suffix), rfl⟩
    have hr : List.isPrefixOf ([] : List Nat) (s.map asciiLower) = true := by
      cases s <;> rfl
    simpa using hl.trans hr.symm
  | cons a p' ih =>
    intro s
    have ha := hp a (List.mem_cons_self _ _)
    have ih' := ih (fun x hx => hp x (List.mem_cons_of_mem _ hx))
    cases s with
    | nil =>
      simp only [List.cons_append, likeMatch, if_neg ha.1, List.map_cons,
        List.map_nil]
      rfl
    | cons c s' =>
      have h95 : (a == 95) = false := by simp [ha.2]
      have hsymm : (asciiLower c == asciiLower a) =
          (asciiLower a == asciiLower c) := by
        by_cases h : asciiLower c = asciiLower a
        · simp [h]
        · simp [h, Ne.symm h]
      simp only [List.cons_append, likeMatch, if_neg ha.1, h95,
        Bool.false_or, List.map_cons, List.isPrefixOf, List.append_eq,
        ih' s', hsymm]

/-- A doubly-`%`-wrapped wildcard-free term tests case-insensitive
substring occurrence. -/
theorem likeMatch_substr (t : List Nat)
    (ht : ∀ x ∈ t, x ≠ 37 ∧ x ≠ 95) (s : List Nat) :
    likeMatch (37 :: (t ++ [37])) s = ciSubstr t s := by
  simp only [likeMatch, if_true, reduceIte, ciSubstr, likeMatch_lit_pct t ht]

/-- The sort realising `ORDER BY created_at DESC` is newest-first. -/
theorem mergeSort_newestFirst_sorted (l : List QueryRow) :
    List.Pairwise (fun a b => b.created_at ≤ a.created_at)
      (l.mergeSort newestFirst) := by
  have htrans : ∀ (a b c : QueryRow), newestFirst a b = true →
      newestFirst b c = true → newestFirst a c = true := by
    intro a b c hab hbc
    simp only [newestFirst, decide_eq_true_eq] at *
    omega
  have htotal : ∀ (a b : QueryRow),
      (newestFirst a b || newestFirst b a) = true := by
    intro a b
    simp only [newestFirst]
    rcases Nat.le_total b.created_at a.created_at with h | h <;> simp [h]
  exact (List.sorted_mergeSort htrans htotal l).imp
    (fun hab => by simpa [newestFirst] using hab)

/-- C7 counterexample: with the stored row whose `name` is `"axb"` and
the search term `"a%b"`, `get_contacts` returns the row even though the
term does not occur as a (case-insensitive) substring of any of the six
searched fields — the term is interpreted as a LIKE pattern, so the
claim's substring reading is false. -/
theorem claim_C7_counterexample :
    c7wildRow ∈ get_contacts [c7wildRow] (some (codes "a%b")) ∧
    (rowFields c7wildRow).any (ciSubstr (codes "a%b")) = false := by
  constructor
  · simp only [get_contacts, List.mem_mergeSort]
    decide
  · decide

/-- C7 amended: with no (or an empty) search term, `get_contacts`
returns exactly the stored rows, newest-first by `created_at`; with a
search term it returns, newest-first, exactly the rows for which the
term LIKE-matches (pattern `'%term%'`) one of name, address, postcode,
skills, other, email_sender — which, for terms containing no LIKE
wildcard (`%` or `_`), is exactly case-insensitive substring occurrence
in at least one of those six fields (OR semantics, single substring). -/
theorem claim_C7_search_semantics :
    (∀ db : List QueryRow,
      List.Pairwise (fun a b => b.created_at ≤ a.created_at)
        (get_contacts db none) ∧
      ∀ r, r ∈ get_contacts db none ↔ r ∈ db) ∧
    (∀ (db : List QueryRow) (t : List Nat), t ≠ [] →
      (∀ x ∈ t, x ≠ 37 ∧ x ≠ 95) →
      List.Pairwise (fun a b => b.created_at ≤ a.created_at)
        (get_contacts db (some t)) ∧
      ∀ r, r ∈ get_contacts db (some t) ↔
        r ∈ db ∧ (rowFields r).any (ciSubstr t) = true) := by
  constructor
  · intro db
    exact ⟨mergeSort_newestFirst_sorted db,
      fun r => by simp [get_contacts, List.mem_mergeSort]⟩
  · intro db t htne ht
    constructor
    · simp only [get_contacts, if_neg htne]
      exact mergeSort_newestFirst_sorted _
    · intro r
      simp only [get_contacts, if_neg htne, List.mem_mergeSort,
        List.mem_filter, likeAnyField, likeMatch_substr t ht]

/-- Witness for C7 amended: the search term `"devops"` matches the
record whose skills contain `"DevOps"` (case-insensitive substring). -/
theorem claim_C7_search_semantics_witness :
    c7devRow ∈ get_contacts [c7devRow, c7otherRow] (some (codes "devops")) ↔
      c7devRow ∈ [c7devRow, c7otherRow] ∧
      (rowFields c7devRow).any (ciSubstr (codes "devops")) = true :=
  (claim_C7_search_semantics.2 [c7devRow, c7otherRow] (codes "devops")
    (by decide) (by decide)).2 c7devRow

/-- C9: `start_processing` is a no-op reporting `"already_running"`
(spawning nothing) when the flag is already set, and otherwise sets the
flag, spawns the task and reports `"started"`; in the discrete-time
model of the 1-second tick loop, every poll iteration starts strictly
before the recorded stop time (hence never more than one second after
it), and once the clock has reached the stop time the wait loop sleeps
no further. -/
theorem claim_C9_orchestrator :
    (start_processing true = (codes "already_running", true, false) ∧
     start_processing false = (codes "started", true, true)) ∧
    (∀ stop fuel t, ∀ u ∈ pollStarts stop fuel t, u < stop) ∧
    (∀ stop n t, t ≤ stop → waitTicks stop n t ≤ stop) := by
  refine ⟨⟨rfl, rfl⟩, ?_, ?_⟩
  · intro stop fuel
    induction fuel with
    | zero => intro t u hu; simp [pollStarts] at hu
    | succ f ih =>
      intro t u hu
      by_cases ht : t < stop
      · simp only [pollStarts, if_pos ht, List.mem_cons] at hu
        rcases hu with rfl | hu
        · exact ht
        · exact ih _ u hu
      · simp [pollStarts, ht] at hu
  · intro stop n
    induction n with
    | zero => intro t h; exact h
    | succ m ih =>
      intro t h
      by_cases ht : t < stop
      · simp only [waitTicks, if_pos ht]
        exact ih (t + 1) ht
      · simpa [waitTicks, ht] using h

/-- Witness for C9: the poll iteration observed at clock 0 with a stop
recorded at time 2 starts before the stop, and the wait loop halts by
the stop time. -/
theorem claim_C9_orchestrator_witness :
    (0 ∈ pollStarts 2 1 0 ∧ 0 < 2) ∧ waitTicks 2 300 0 ≤ 2 :=
  ⟨⟨by decide, claim_C9_orchestrator.2.1 2 1 0 0 (by decide)⟩,
    claim_C9_orchestrator.2.2 2 300 0 (by decide)⟩

/-- Alphabet characters survive the url-safe translation round trip,
are never the padding character, and decode to their sextet. -/
theorem b64Char_props : ∀ v < 64,
    toStd (toUrlsafe (b64Char v)) = b64Char v ∧
    b64Char v ≠ 61 ∧ b64Val (b64Char v) = some v := by decide

/-- The padding character survives the url-safe translation. -/
theorem toStd_toUrlsafe_pad : toStd (toUrlsafe 61) = 61 := rfl

/-- Base64 round trip: decoding the url-safe encoding of a byte list
recovers it. -/
theorem b64_roundtrip (bs : List Nat) (h : ∀ b ∈ bs, b < 256) :
    urlsafe_b64decode (urlsafe_b64encode bs) = some bs := by
  unfold urlsafe_b64decode urlsafe_b64encode
  rw [List.map_map]
  have key : ∀ (l : List Nat), (∀ b ∈ l, b < 256) →
      a2bLoop ((b64encodeBytes l).map (toStd ∘ toUrlsafe)) .q0 0 = some l := by
    intro l
    induction l using b64encodeBytes.induct with
    | case1 => intro _; rfl
    | case2 a =>
      intro hl
      have ha : a < 256 := hl a (by simp)
      have h1 := b64Char_props (a / 4) (by omega)
      have h2 := b64Char_props (a % 4 * 16) (by omega)
      simp only [b64encodeBytes, List.map_cons, List.map_nil,
        Function.comp_apply, h1.1, h2.1, toStd_toUrlsafe_pad, a2bLoop,
        h1.2.1, h1.2.2, h2.2.1, h2.2.2, if_false, if_true, reduceIte]
      have e1 : a / 4 * 4 + a % 4 * 16 / 16 = a := by omega
      rw [e1]
      norm_num
    | case3 a b =>
      intro hl
      have ha : a < 256 := hl a (by simp)
      have hb : b < 256 := hl b (by simp)
      have h1 := b64Char_props (a / 4) (by omega)
      have h2 := b64Char_props (a % 4 * 16 + b / 16) (by omega)
      have h3 := b64Char_props (b % 16 * 4) (by omega)
      simp only [b64encodeBytes, List.map_cons, List.map_nil,
        Function.comp_apply, h1.1, h2.1, h3.1, toStd_toUrlsafe_pad, a2bLoop,
        h1.2.1, h1.2.2, h2.2.1, h2.2.2, h3.2.1, h3.2.2, if_false, if_true,
        reduceIte]
      congr 1
      have e1 : a / 4 * 4 + (a % 4 * 16 + b / 16) / 16 = a := by omega
      have e2 : (a % 4 * 16 + b / 16) % 16 * 16 + b % 16 * 4 / 4 = b := by
        omega
      rw [e1, e2]
    | case4 a b c rest ih =>
      intro hl
      have ha : a < 256 := hl a (by simp)
      have hb : b < 256 := hl b (by simp)
      have hc : c < 256 := hl c (by simp)
      have h1 := b64Char_props (a / 4) (by omega)
      have h2 := b64Char_props (a % 4 * 16 + b / 16) (by omega)
      have h3 := b64Char_props (b % 16 * 4 + c / 64) (by omega)
      have h4 := b64Char_props (c % 64) (by omega)
      have ihr := ih (fun x hx => hl x (by simp [hx]))
      simp only [b64encodeBytes, List.map_cons, Function.comp_apply,
        h1.1, h2.1, h3.1, h4.1, a2bLoop, h1.2.1, h1.2.2, h2.2.1, h2.2.2,
        h3.2.1, h3.2.2, h4.2.1, h4.2.2, if_false, ihr, Option.map_some]
      have e1 : a / 4 * 4 + (a % 4 * 16 + b / 16) / 16 = a := by omega
      have e2 : (a % 4 * 16 + b / 16) % 16 * 16 + (b % 16 * 4 + c / 64) / 4 = b := by
        omega
      have e3 : (b % 16 * 4 + c / 64) % 4 * 64 + c % 64 = c := by omega
      rw [e1, e2, e3]
      rfl
  exact key bs h

/-- Every byte of a UTF-8 encoded scalar is a byte. -/
theorem utf8EncodeChar_bytes_lt (c : Nat) (hc : c < 1114112) :
    ∀ b ∈ utf8EncodeChar c, b < 256 := by
  intro b hb
  unfold utf8EncodeChar at hb
  by_cases h1 : c < 128
  · simp only [if_pos h1, List.mem_singleton] at hb
    omega
  · by_cases h2 : c < 2048
    · simp only [if_neg h1, if_pos h2, List.mem_cons, List.mem_singleton,
        List.not_mem_nil, or_false] at hb
      rcases hb with rfl | rfl <;> omega
    · by_cases h3 : c < 65536
      · simp only [if_neg h1, if_neg h2, if_pos h3, List.mem_cons,
          List.not_mem_nil, or_false] at hb
        rcases hb with rfl | rfl | rfl <;> omega
      · simp only [if_neg h1, if_neg h2, if_neg h3, List.mem_cons,
          List.not_mem_nil, or_false] at hb
        rcases hb with rfl | rfl | rfl | rfl <;> omega

/-- Congruence for prepending equal scalars to a decoded tail. -/
theorem map_cons_congr (X : Option (List Nat)) (x y : Nat) (h : x = y) :
    Option.map (fun cs => x :: cs) X = Option.map (fun cs => y :: cs) X := by
  rw [h]

/-- UTF-8 per-character round trip: decoding the encoding of a valid
scalar prepends that scalar. -/
theorem utf8_char_roundtrip (c : Nat) (hc : validScalar c)
    (rest : List Nat) :
    utf8Run (utf8EncodeChar c ++ rest) 0 0 0 0 =
      (utf8Run rest 0 0 0 0).map (fun cs => c :: cs) := by
  obtain ⟨hlt, hsur⟩ := hc
  have g00 : (0 : Nat) = 0 := rfl
  have g10 : ¬ ((1 : Nat) = 0) := by decide
  have g11 : (1 : Nat) = 1 := rfl
  have g20 : ¬ ((2 : Nat) = 0) := by decide
  have g21 : ¬ ((2 : Nat) = 1) := by decide
  have g210 : ¬ ((2 - 1 : Nat) = 0) := by decide
  have g211 : (2 - 1 : Nat) = 1 := by decide
  have g30 : ¬ ((3 : Nat) = 0) := by decide
  have g31 : ¬ ((3 : Nat) = 1) := by decide
  have g310 : ¬ ((3 - 1 : Nat) = 0) := by decide
  have g311 : ¬ ((3 - 1 : Nat) = 1) := by decide
  have g3110 : ¬ ((3 - 1 - 1 : Nat) = 0) := by decide
  have g3111 : (3 - 1 - 1 : Nat) = 1 := by decide
  have hd1 : c / 64 / 64 = c / 4096 := by
    rw [Nat.div_div_eq_div_mul]
  have hd2 : c / 4096 / 64 = c / 262144 := by
    rw [Nat.div_div_eq_div_mul]
  by_cases h1 : c < 128
  · simp only [utf8EncodeChar, if_pos h1, List.cons_append, List.nil_append]
    rw [utf8Run]
    simp only [if_pos g00, if_true, if_pos h1]
  · by_cases h2 : c < 2048
    · have e1 : ¬ (192 + c / 64 < 128) := by omega
      have e2 : ¬ (192 + c / 64 < 194) := by omega
      have e3 : 192 + c / 64 < 224 := by omega
      have e4 : 128 ≤ 128 + c % 64 ∧ 128 + c % 64 < 192 := by omega
      simp only [utf8EncodeChar, if_neg h1, if_pos h2, List.cons_append,
        List.nil_append]
      rw [utf8Run]
      simp only [if_pos g00, if_true, if_neg e1, if_neg e2, if_pos e3]
      rw [utf8Run]
      simp only [if_neg g10, if_pos e4, if_pos g11]
      exact map_cons_congr _ _ _ (by omega)
    · by_cases h3 : c < 65536
      · have e1 : ¬ (224 + c / 4096 < 128) := by omega
        have e2 : ¬ (224 + c / 4096 < 194) := by omega
        have e3 : ¬ (224 + c / 4096 < 224) := by omega
        have ec2 : 128 ≤ 128 + c % 64 ∧ 128 + c % 64 < 192 := by omega
        simp only [utf8EncodeChar, if_neg h1, if_neg h2, if_pos h3,
          List.cons_append, List.nil_append]
        rw [utf8Run]
        simp only [if_pos g00, if_true, if_neg e1, if_neg e2, if_neg e3]
        by_cases hA : c < 4096
        · have hb : 224 + c / 4096 = 224 := by omega
          have ec1 : 160 ≤ 128 + c / 64 % 64 ∧ 128 + c / 64 % 64 < 192 := by
            omega
          rw [if_pos hb, utf8Run]
          simp only [if_neg g20, if_pos ec1, if_neg g21]
          rw [utf8Run]
          simp only [if_neg g210, if_pos ec2, if_pos g211]
          exact map_cons_congr _ _ _ (by omega)
        · by_cases hB : 53248 ≤ c ∧ c < 57344
          · have hb0 : ¬ (224 + c / 4096 = 224) := by omega
            have hb : 224 + c / 4096 = 237 := by omega
            have ec1 : 128 ≤ 128 + c / 64 % 64 ∧ 128 + c / 64 % 64 < 160 := by
              omega
            rw [if_neg hb0, if_pos hb, utf8Run]
            simp only [if_neg g20, if_pos ec1, if_neg g21]
            rw [utf8Run]
            simp only [if_neg g210, if_pos ec2, if_pos g211]
            exact map_cons_congr _ _ _ (by omega)
          · have hb0 : ¬ (224 + c / 4096 = 224) := by omega
            have hb1 : ¬ (224 + c / 4096 = 237) := by omega
            have hb2 : 224 + c / 4096 < 240 := by omega
            have ec1 : 128 ≤ 128 + c / 64 % 64 ∧ 128 + c / 64 % 64 < 192 := by
              omega
            rw [if_neg hb0, if_neg hb1, if_pos hb2, utf8Run]
            simp only [if_neg g20, if_pos ec1, if_neg g21]
            rw [utf8Run]
            simp only [if_neg g210, if_pos ec2, if_pos g211]
            exact map_cons_congr _ _ _ (by omega)
      · have e1 : ¬ (240 + c / 262144 < 128) := by omega
        have e2 : ¬ (240 + c / 262144 < 194) := by omega
        have e3 : ¬ (240 + c / 262144 < 224) := by omega
        have e4 : ¬ (240 + c / 262144 = 224) := by omega
        have e5 : ¬ (240 + c / 262144 = 237) := by omega
        have e6 : ¬ (240 + c / 262144 < 240) := by omega
        have ec2 : 128 ≤ 128 + c / 64 % 64 ∧ 128 + c / 64 % 64 < 192 := by
          omega
        have ec3 : 128 ≤ 128 + c % 64 ∧ 128 + c % 64 < 192 := by omega
        simp only [utf8EncodeChar, if_neg h1, if_neg h2, if_neg h3,
          List.cons_append, List.nil_append]
        rw [utf8Run]
        simp only [if_pos g00, if_true, if_neg e1, if_neg e2, if_neg e3, if_neg e4,
          if_neg e5, if_neg e6]
        by_cases hA : c < 262144
        · have hb : 240 + c / 262144 = 240 := by omega
          have ec1 : 144 ≤ 128 + c / 4096 % 64 ∧ 128 + c / 4096 % 64 < 192 := by
            omega
          rw [if_pos hb, utf8Run]
          simp only [if_neg g30, if_pos ec1, if_neg g31]
          rw [utf8Run]
          simp only [if_neg g310, if_pos ec2, if_neg g311]
          rw [utf8Run]
          simp only [if_neg g3110, if_pos ec3, if_pos g3111]
          exact map_cons_congr _ _ _ (by omega)
        · by_cases hB : 1048576 ≤ c
          · have hb0 : ¬ (240 + c / 262144 = 240) := by omega
            have hb : 240 + c / 262144 = 244 := by omega
            have ec1 : 128 ≤ 128 + c / 4096 % 64 ∧ 128 + c / 4096 % 64 < 144 := by
              omega
            rw [if_neg hb0, if_pos hb, utf8Run]
            simp only [if_neg g30, if_pos ec1, if_neg g31]
            rw [utf8Run]
            simp only [if_neg g310, if_pos ec2, if_neg g311]
            rw [utf8Run]
            simp only [if_neg g3110, if_pos ec3, if_pos g3111]
            exact map_cons_congr _ _ _ (by omega)
          · have hb0 : ¬ (240 + c / 262144 = 240) := by omega
            have hb1 : ¬ (240 + c / 262144 = 244) := by omega
            have hb2 : 240 + c / 262144 < 245 := by omega
            have ec1 : 128 ≤ 128 + c / 4096 % 64 ∧ 128 + c / 4096 % 64 < 192 := by
              omega
            rw [if_neg hb0, if_neg hb1, if_pos hb2, utf8Run]
            simp only [if_neg g30, if_pos ec1, if_neg g31]
            rw [utf8Run]
            simp only [if_neg g310, if_pos ec2, if_neg g311]
            rw [utf8Run]
            simp only [if_neg g3110, if_pos ec3, if_pos g3111]
            exact map_cons_congr _ _ _ (by omega)

/-- UTF-8 round trip over a list of valid scalars. -/
theorem utf8_roundtrip (cps : List Nat) (h : ∀ c ∈ cps, validScalar c) :
    utf8Decode (utf8Encode cps) = some cps := by
  induction cps with
  | nil => rfl
  | cons c rest ih =>
    have ih2 := ih (fun x hx => h x (List.mem_cons_of_mem _ hx))
    unfold utf8Decode utf8Encode at ih2 ⊢
    rw [List.flatMap_cons]
    rw [utf8_char_roundtrip c (h c (List.mem_cons_self _ _))]
    rw [ih2]
    rfl

/-- C5: decoding inverts encoding for inline body data that is valid
url-safe base64 of UTF-8 text; malformed base64 or invalid UTF-8 inline
data yields the error sentinel (never an exception — the model is
total); a multi-part payload yields the decoding of the first part
declared `text/plain` that carries data; and with no readable part (or
no parts at all) the "no readable content" sentinel is returned. -/
theorem claim_C5_decode_email_body :
    (∀ (cps : List Nat) (pr : Option (List Part)),
        (∀ c ∈ cps, validScalar c) →
        decode_email_body ⟨some (urlsafe_b64encode (utf8Encode cps)), pr⟩ =
          cps) ∧
    (∀ (d : List Nat) (pr : Option (List Part)),
        (urlsafe_b64decode d = none ∨
          (∃ bs, urlsafe_b64decode d = some bs ∧ utf8Decode bs = none)) →
        decode_email_body ⟨some d, pr⟩ =
          codes "Error decoding email body") ∧
    (∀ (pre post : List Part) (pt : Part) (d : List Nat),
        (∀ q ∈ pre, ¬ readablePart q) →
        pt.mimeType = codes "text/plain" → pt.dataB = some d →
        decode_email_body ⟨none, some (pre ++ pt :: post)⟩ =
          tryDecode d (codes "Error decoding email part")) ∧
    (∀ parts : List Part, (∀ q ∈ parts, ¬ readablePart q) →
        decode_email_body ⟨none, some parts⟩ =
          codes "No readable content found") ∧
    decode_email_body ⟨none, none⟩ = codes "No readable content found" := by
  refine ⟨?_, ?_, ?_, ?_, rfl⟩
  · intro cps pr hv
    have hbytes : ∀ b ∈ utf8Encode cps, b < 256 := by
      intro b hb
      rw [utf8Encode] at hb
      rcases List.mem_flatMap.1 hb with ⟨c, hc, hbc⟩
      exact utf8EncodeChar_bytes_lt c (hv c hc).1 b hbc
    have h1 := b64_roundtrip (utf8Encode cps) hbytes
    have h2 := utf8_roundtrip cps hv
    show tryDecode (urlsafe_b64encode (utf8Encode cps))
      (codes "Error decoding email body") = cps
    simp only [tryDecode, h1, h2]
  · intro d pr hbad
    show tryDecode d (codes "Error decoding email body") = _
    rcases hbad with hnone | ⟨bs, hsome, hdec⟩
    · simp only [tryDecode, hnone]
    · simp only [tryDecode, hsome, hdec]
  · intro pre post pt d hpre hmime hdata
    show scanParts (pre ++ pt :: post) = _
    induction pre with
    | nil =>
      simp only [List.nil_append, scanParts, hdata, if_pos hmime]
    | cons q pre2 ih =>
      have hq := hpre q (List.mem_cons_self _ _)
      have ih2 := ih (fun x hx => hpre x (List.mem_cons_of_mem _ hx))
      rcases hd : q.dataB with _ | d2
      · simpa [List.cons_append, scanParts, hd] using ih2
      · have hm : ¬ (q.mimeType = codes "text/plain") := by
          intro hmm
          exact hq ⟨hmm, by simp [hd]⟩
        simpa [List.cons_append, scanParts, hd, if_neg hm] using ih2
  · intro parts hparts
    show scanParts parts = _
    induction parts with
    | nil => rfl
    | cons q rest ih =>
      have hq := hparts q (List.mem_cons_self _ _)
      have ih2 := ih (fun x hx => hparts x (List.mem_cons_of_mem _ hx))
      rcases hd : q.dataB with _ | d2
      · simpa [scanParts, hd] using ih2
      · have hm : ¬ (q.mimeType = codes "text/plain") := by
          intro hmm
          exact hq ⟨hmm, by simp [hd]⟩
        simpa [scanParts, hd, if_neg hm] using ih2

/-- Witness for C5: a concrete round trip (`"Hi"`), a concrete
malformed-base64 sentinel, a concrete multipart scan skipping an
unreadable part, and a concrete no-readable-part sentinel. -/
theorem claim_C5_decode_email_body_witness :
    decode_email_body
        ⟨some (urlsafe_b64encode (utf8Encode (codes "Hi"))), none⟩ =
      codes "Hi" ∧
    decode_email_body ⟨some (codes "QQ"), none⟩ =
      codes "Error decoding email body" ∧
    decode_email_body
        ⟨none, some [⟨codes "text/html", some (codes "SGk=")⟩,
          ⟨codes "text/plain", some (codes "SGk=")⟩]⟩ =
      tryDecode (codes "SGk=") (codes "Error decoding email part") ∧
    decode_email_body ⟨none, some [⟨codes "text/plain", none⟩]⟩ =
      codes "No readable content found" := by
  refine ⟨?_, ?_, ?_, ?_⟩
  · exact claim_C5_decode_email_body.1 (codes "Hi") none (by decide)
  · exact claim_C5_decode_email_body.2.1 (codes "QQ") none
      (Or.inl (by decide))
  · exact claim_C5_decode_email_body.2.2.1
      [⟨codes "text/html", some (codes "SGk=")⟩] []
      ⟨codes "text/plain", some (codes "SGk=")⟩ (codes "SGk=")
      (by decide) rfl rfl
  · exact claim_C5_decode_email_body.2.2.2.1
      [⟨codes "text/plain", none⟩] (by decide)

/-- If the word `w` does not occur in `s`, it does not sit at the head
of any suffix of `s`. -/
theorem noOcc_wordAtHead (w s s' : List Nat) (hs : s' <:+ s)
    (h : ciOccurs w s = false) : Re.wordAtHead true w s' = false := by
  rw [ciOccurs, List.any_eq_false] at h
  exact Bool.eq_false_iff.2 fun hw =>
    (h s' ((List.mem_tails _ _).2 hs)) hw

/-- A pattern anchored on a word that occurs nowhere in the text never
matches, at any position. -/
theorem searchAux_word_seq_none (w : List Nat) (r : Re.Regex) :
    ∀ (s : List Nat) (prev : Option Nat),
    (∀ s' : List Nat, s' <:+ s → Re.wordAtHead true w s' = false) →
    Re.searchAux true (.seq (.word w) r) prev s = none := by
  intro s
  induction s with
  | nil =>
    intro prev h
    have hw := h [] (List.nil_suffix)
    simp [Re.searchAux, Re.mrun, hw]
  | cons c rest ih =>
    intro prev h
    have hw := h (c :: rest) (List.suffix_refl _)
    have hstep : Re.mrun true (.seq (.word w) r) prev (c :: rest) = [] := by
      simp [Re.mrun, hw]
    rw [Re.searchAux, hstep]
    exact ih (some c) (fun s' hs => h s' (hs.trans (List.suffix_cons c rest)))

/-- The head of a filtering flatMap is the first element passing the
filter. -/
theorem flatMap_filter_head {A : Type} (l : List A) (cond : A → Bool) :
    (l.flatMap (fun x => if cond x then [x] else [])).head? =
      l.find? cond := by
  induction l with
  | nil => rfl
  | cons a t ih =>
    by_cases h : cond a
    · simp [List.flatMap_cons, h, List.find?]
    · simp [List.flatMap_cons, h, List.find?, ih]

/-- On a strictly increasing list, `find?` returns the least member
satisfying the predicate. -/
theorem find?_sorted_first (l : List Nat) (hl : l.Pairwise (· < ·))
    (P : Nat → Bool) (j : Nat) (hj : j ∈ l) (hPj : P j = true)
    (hmin : ∀ i ∈ l, i < j → P i = false) : l.find? P = some j := by
  induction l with
  | nil => cases hj
  | cons a t ih =>
    rcases List.mem_cons.1 hj with rfl | hjt
    · simp [List.find?, hPj]
    · have haj : a < j := (List.pairwise_cons.1 hl).1 j hjt
      have hPa : P a = false := hmin a (List.mem_cons_self _ _) haj
      have ih2 := ih (List.pairwise_cons.1 hl).2 hjt
        (fun i hi hij => hmin i (List.mem_cons_of_mem _ hi) hij)
      simp [List.find?, hPa, ih2]

/-- The DOTALL dot matches every character, so its maximal run is the
whole text. -/
theorem runLen_dotAll (l : List Nat) : Re.runLen .dotAll l = l.length := by
  induction l with
  | nil => rfl
  | cons c t ih => simp [Re.runLen, Re.ccMatch, ih]

/-- Whitespace runs accumulate across an all-whitespace prefix. -/
theorem runLen_ws_append (a b : List Nat) (ha : wsOnly a = true) :
    Re.runLen .ws (a ++ b) = a.length + Re.runLen .ws b := by
  induction a with
  | nil => simp
  | cons c t ih =>
    rw [wsOnly, List.all_cons, Bool.and_eq_true] at ha
    have iht := ih ha.2
    simp only [List.cons_append, List.append_eq, Re.runLen, Re.ccMatch,
      ha.1, if_true, iht, List.length_cons]
    omega

/-- Any prefix within the whitespace run is all whitespace. -/
theorem take_runLen_ws (l : List Nat) (j : Nat)
    (hj : j ≤ Re.runLen .ws l) : wsOnly (l.take j) = true := by
  induction l generalizing j with
  | nil => simp [wsOnly]
  | cons c t ih =>
    cases j with
    | zero => simp [wsOnly]
    | succ m =>
      rw [Re.runLen] at hj
      by_cases hc : Re.ccMatch .ws c
      · rw [if_pos hc] at hj
        have := ih m (by omega)
        rw [List.take_succ_cons, wsOnly, List.all_cons]
        rw [wsOnly] at this
        simp only [this, Bool.and_true]
        exact hc
      · rw [if_neg hc] at hj
        omega

/-- The head of a `dropWhile` fails the predicate. -/
theorem dropWhile_head_false {p : Nat → Bool} :
    ∀ {l : List Nat} {c : Nat},
    (l.dropWhile p).head? = some c → p c = false := by
  intro l
  induction l with
  | nil => intro c h; cases h
  | cons a t ih =>
    intro c h
    by_cases hp : p a
    · rw [List.dropWhile_cons_of_pos hp] at h
      exact ih h
    · rw [List.dropWhile_cons_of_neg hp] at h
      cases h
      exact Bool.eq_false_iff.2 hp

/-- `rstripWs` yields a prefix of its argument. -/
theorem rstripWs_isPre (l : List Nat) : rstripWs l <+: l := by
  rw [rstripWs]
  have h : List.dropWhile isWsB l.reverse <:+ l.reverse :=
    List.dropWhile_suffix isWsB
  have h2 : (List.dropWhile isWsB l.reverse).reverse <+:
      l.reverse.reverse := List.reverse_prefix.2 h
  rwa [List.reverse_reverse] at h2

/-- Decomposition of a list into its right-stripped part and the
trailing whitespace. -/
theorem rstripWs_decomp (l : List Nat) :
    l = rstripWs l ++ (l.reverse.takeWhile isWsB).reverse ∧
    wsOnly ((l.reverse.takeWhile isWsB).reverse) = true := by
  constructor
  · calc l = l.reverse.reverse := (List.reverse_reverse l).symm
    _ = (l.reverse.takeWhile isWsB ++ l.reverse.dropWhile isWsB).reverse := by
        rw [List.takeWhile_append_dropWhile]
    _ = rstripWs l ++ (l.reverse.takeWhile isWsB).reverse := by
        rw [List.reverse_append, rstripWs]
  · rw [wsOnly, List.all_eq_true]
    intro c hc
    rw [List.mem_reverse] at hc
    exact List.mem_takeWhile_imp hc

/-- The last character surviving `rstripWs` is not whitespace. -/
theorem rstripWs_last_not_ws (l : List Nat) (c : Nat)
    (h : (rstripWs l).getLast? = some c) : isWsB c = false := by
  rw [rstripWs, List.getLast?_reverse] at h
  exact dropWhile_head_false h

/-- With no label word at hand, the label alternation degenerates to
`$`. -/
theorem mrun_altEnds (ls : List String) (prev : Option Nat) (s : List Nat)
    (hw : ∀ w ∈ ls, Re.wordAtHead true (codes w) s = false) :
    Re.mrun true (altEnds ls) prev s = Re.mrun true Re.Regex.eol prev s := by
  induction ls with
  | nil => rfl
  | cons l ls ih =>
    have hl := hw l (List.mem_cons_self _ _)
    have ih2 := ih (fun w hwi => hw w (List.mem_cons_of_mem _ hwi))
    show Re.mrun true (.alt (rword l) (altEnds ls)) prev s = _
    rw [show Re.mrun true (.alt (rword l) (altEnds ls)) prev s =
      Re.mrun true (rword l) prev s ++ Re.mrun true (altEnds ls) prev s
      from rfl]
    rw [show Re.mrun true (rword l) prev s = [] from by
      simp [Re.mrun, rword, hl]]
    rw [List.nil_append, ih2]

/-- `$` under MULTILINE matches exactly at line ends. -/
theorem mrun_eol (prev : Option Nat) (s : List Nat) :
    Re.mrun true Re.Regex.eol prev s =
      if lineEndB s = true then [(prev, s, none)] else [] := by
  cases s with
  | nil => simp [Re.mrun, lineEndB]
  | cons c rest =>
    by_cases hc : c = 10
    · simp [Re.mrun, lineEndB, hc]
    · simp [Re.mrun, lineEndB, hc]

/-- Membership in the greedy `\s*` repetition states. -/
theorem repStates_ws_shape (prev : Option Nat) (s : List Nat) :
    Re.repStates .ws 0 none true prev s =
      ((List.range (Re.runLen .ws s + 1)).map
        (fun i => (0 : Nat) + i)).reverse.map
        (fun k => (if k = 0 then prev else s[k-1]?, s.drop k, none)) := by
  rw [Re.repStates, Re.repKs]
  simp

/-- The lookahead body `\s*(?:labels|$)` produces no state exactly when
no whitespace prefix reaches an end of line. -/
theorem inner_look_nil_iff (ls : List String) (prev : Option Nat)
    (s : List Nat)
    (hw : ∀ (j : Nat), ∀ w ∈ ls,
      Re.wordAtHead true (codes w) (s.drop j) = false) :
    (Re.mrun true (.seq wsStar (altEnds ls)) prev s = []) ↔
      lookOKb s = false := by
  rw [show Re.mrun true (.seq wsStar (altEnds ls)) prev s =
    (Re.repStates .ws 0 none true prev s).flatMap
      (fun st => (Re.mrun true (altEnds ls) st.1 st.2.1).map
        (fun st2 => (st2.1, st2.2.1, st2.2.2 <|> st.2.2))) from rfl]
  rw [List.flatMap_eq_nil_iff, repStates_ws_shape]
  constructor
  · intro h
    rw [lookOKb, List.any_eq_false]
    intro j hj
    rw [List.mem_range] at hj
    have hmem : (if j = 0 then prev else s[j-1]?, s.drop j,
        (none : Option (List Nat))) ∈
        ((List.range (Re.runLen .ws s + 1)).map
          (fun i => (0 : Nat) + i)).reverse.map
          (fun k => (if k = 0 then prev else s[k-1]?, s.drop k, none)) := by
      refine List.mem_map.2 ⟨j, ?_, rfl⟩
      rw [List.mem_reverse]
      exact List.mem_map.2 ⟨j, List.mem_range.2 hj, by omega⟩
    have h2 := h _ hmem
    rw [List.map_eq_nil_iff] at h2
    rw [mrun_altEnds ls _ _ (hw j), mrun_eol] at h2
    by_contra hle
    rw [if_pos hle] at h2
    cases h2
  · intro h st hst
    rw [List.mem_map] at hst
    obtain ⟨k, hk, rfl⟩ := hst
    rw [List.mem_reverse, List.mem_map] at hk
    obtain ⟨i, hi, rfl⟩ := hk
    rw [List.mem_range] at hi
    rw [lookOKb, List.any_eq_false] at h
    have hj := h (0 + i) (List.mem_range.2 (by omega))
    rw [List.map_eq_nil_iff, mrun_altEnds ls _ _ (hw (0 + i)), mrun_eol]
    rw [if_neg hj]

/-- The boundary lookahead: one pass-through state when the condition
holds, nothing otherwise. -/
theorem mrun_boundary_eq (ls : List String) (prev : Option Nat)
    (s : List Nat)
    (hw : ∀ (j : Nat), ∀ w ∈ ls,
      Re.wordAtHead true (codes w) (s.drop j) = false) :
    Re.mrun true (boundary ls) prev s =
      if lookOKb s = true then [(prev, s, none)] else [] := by
  rw [show Re.mrun true (boundary ls) prev s =
    (if (Re.mrun true (.seq wsStar (altEnds ls)) prev s).isEmpty then []
     else [(prev, s, none)]) from rfl]
  by_cases h : lookOKb s
  · rw [if_pos h]
    have hne : ¬ (Re.mrun true (.seq wsStar (altEnds ls)) prev s = []) := by
      intro hnil
      rw [(inner_look_nil_iff ls prev s hw)] at hnil
      rw [hnil] at h
      cases h
    have hb : (Re.mrun true (.seq wsStar (altEnds ls)) prev s).isEmpty =
        false := by
      rw [Bool.eq_false_iff]
      intro hie
      exact hne (List.isEmpty_iff.1 hie)
    simp [hb]
  · rw [if_neg h]
    have hnil : Re.mrun true (.seq wsStar (altEnds ls)) prev s = [] :=
      (inner_look_nil_iff ls prev s hw).2 (Bool.eq_false_iff.2 h)
    simp [List.isEmpty_iff.2 hnil]

/-- Definitional equation: sequencing. -/
theorem mrun_seq (ci : Bool) (r1 r2 : Re.Regex) (prev : Option Nat)
    (s : List Nat) :
    Re.mrun ci (.seq r1 r2) prev s =
      (Re.mrun ci r1 prev s).flatMap (fun st =>
        (Re.mrun ci r2 st.1 st.2.1).map
          (fun st2 => (st2.1, st2.2.1, st2.2.2 <|> st.2.2))) := rfl

/-- Definitional equation: `^` at the very start of the text. -/
theorem mrun_bol_none (ci : Bool) (s : List Nat) :
    Re.mrun ci .bol none s = [(none, s, none)] := rfl

/-- Definitional equation: the capture group. -/
theorem mrun_grp (ci : Bool) (r : Re.Regex) (prev : Option Nat)
    (s : List Nat) :
    Re.mrun ci (.grp r) prev s =
      (Re.mrun ci r prev s).map
        (fun st => (st.1, st.2.1, some (s.take (s.length - st.2.1.length)))) :=
  rfl

/-- Definitional equation: class repetition. -/
theorem mrun_rep (ci : Bool) (cc : Re.CC) (lo : Nat) (hi : Option Nat)
    (g : Bool) (prev : Option Nat) (s : List Nat) :
    Re.mrun ci (.rep cc lo hi g) prev s = Re.repStates cc lo hi g prev s :=
  rfl

/-- Merging a `none` capture changes nothing. -/
theorem map_merge_none (l : List Re.MState) :
    l.map (fun st => (st.1, st.2.1, st.2.2 <|> none)) = l := by
  have h : ∀ st ∈ l,
      (st.1, st.2.1, st.2.2 <|> (none : Option (List Nat))) = st := by
    intro st _
    obtain ⟨a, b, c⟩ := st
    simp
  calc l.map (fun st => (st.1, st.2.1, st.2.2 <|> none)) = l.map id :=
      List.map_congr_left h
  _ = l := List.map_id _

/-- The head of a flatMap of guarded singletons is the first index
passing the guard. -/
theorem flatMap_if_head (ks : List Nat) (F : Nat → Re.MState)
    (P : Nat → Bool) :
    (ks.flatMap (fun k => if P k then [F k] else [])).head? =
      (ks.find? P).map F := by
  induction ks with
  | nil => rfl
  | cons a t ih =>
    by_cases h : P a
    · simp [h, List.find?]
    · simp [h, List.find?, ih]

/-- The lazy capture candidates of the fallback name pattern are the
strictly increasing lengths `1, ..., length`. -/
theorem repKs_lazy (n : Nat) (hn : 1 ≤ n) :
    Re.repKs 1 none false n = (List.range n).map (fun i => 1 + i) := by
  rw [Re.repKs]
  simp only [if_pos hn]
  have h : n - 1 + 1 = n := by omega
  rw [h, if_neg (by simp)]

/-- Search of the fallback name pattern on label-free text: match at
position 0, with the least capture length whose lookahead succeeds. -/
theorem namePat2_search_eq (cl : List Nat) (hne : cl ≠ [])
    (hw : ∀ (j : Nat), ∀ w ∈ labelStrings,
      Re.wordAtHead true (codes w) (cl.drop j) = false)
    (k0 : Nat) (hk1 : 1 ≤ k0) (hk2 : k0 ≤ cl.length)
    (hP : lookOKb (cl.drop k0) = true)
    (hmin : ∀ i, 1 ≤ i → i < k0 → lookOKb (cl.drop i) = false) :
    Re.search true namePat2 cl = some (cl.take k0, some (cl.take k0)) := by
  have hsub : ∀ w ∈ ["address", "postcode", "skills", "other", "from",
      "subject"], w ∈ labelStrings := by decide
  have hB : ∀ (prev : Option Nat) (k : Nat),
      Re.mrun true (boundary ["address", "postcode", "skills", "other",
        "from", "subject"]) prev (cl.drop k) =
        if lookOKb (cl.drop k) = true then [(prev, cl.drop k, none)]
        else [] := by
    intro prev k
    refine mrun_boundary_eq _ prev (cl.drop k) ?_
    intro j w hwmem
    rw [List.drop_drop]
    exact hw (k + j) w (hsub w hwmem)
  have hmain : Re.mrun true namePat2 none cl =
      ((List.range cl.length).map (fun i => 1 + i)).flatMap
        (fun k => if lookOKb (cl.drop k) = true then
          [(cl[k-1]?, cl.drop k, some (cl.take k))] else []) := by
    rw [show namePat2 = .seq .bol (.seq (.grp dotPlusLazy)
      (boundary ["address", "postcode", "skills", "other", "from",
        "subject"])) from rfl]
    rw [mrun_seq, mrun_bol_none]
    rw [show ([((none : Option Nat), cl, (none : Option (List Nat)))].flatMap
      (fun st => (Re.mrun true (.seq (.grp dotPlusLazy)
        (boundary ["address", "postcode", "skills", "other", "from",
          "subject"])) st.1 st.2.1).map
        (fun st2 => (st2.1, st2.2.1, st2.2.2 <|> st.2.2)))) =
      (Re.mrun true (.seq (.grp dotPlusLazy)
        (boundary ["address", "postcode", "skills", "other", "from",
          "subject"])) none cl).map
        (fun st2 => (st2.1, st2.2.1, st2.2.2 <|> none)) from by
      simp]
    rw [map_merge_none]
    rw [mrun_seq, mrun_grp, dotPlusLazy, mrun_rep]
    rw [Re.repStates]
    rw [show Re.runLen .dotAll cl = cl.length from runLen_dotAll cl]
    rw [repKs_lazy cl.length (by
      cases cl with
      | nil => exact absurd rfl hne
      | cons a b => simp)]
    rw [List.map_map, List.flatMap_map]
    refine List.flatMap_congr ?_
    intro k hk
    rw [List.mem_map] at hk
    obtain ⟨i, hi, rfl⟩ := hk
    rw [List.mem_range] at hi
    simp only [Function.comp_apply]
    rw [hB]
    by_cases hlk : lookOKb (cl.drop (1 + i)) = true
    · rw [if_pos hlk, if_pos hlk]
      simp only [List.map_cons, List.map_nil]
      have hnz : ¬ (1 + i = 0) := by omega
      rw [if_neg hnz]
      have hlen : cl.length - (List.drop (1 + i) cl).length = 1 + i := by
        rw [List.length_drop]
        omega
      rw [hlen]
      simp
    · rw [if_neg hlk, if_neg hlk]
      simp
  have hfind : ((List.range cl.length).map (fun i => 1 + i)).find?
      (fun k => lookOKb (cl.drop k)) = some k0 := by
    refine find?_sorted_first _ ?_ _ k0 ?_ hP ?_
    · rw [List.pairwise_map]
      refine (List.pairwise_lt_range cl.length).imp ?_
      intro a b hab
      omega
    · refine List.mem_map.2 ⟨k0 - 1, List.mem_range.2 (by omega),
        by omega⟩
    · intro i hi hik
      rw [List.mem_map] at hi
      obtain ⟨j, hj, rfl⟩ := hi
      exact hmin (1 + j) (by omega) hik
  have hhead : (Re.mrun true namePat2 none cl).head? =
      some (cl[k0-1]?, cl.drop k0, some (cl.take k0)) := by
    rw [hmain, flatMap_if_head _ (fun k => (cl[k-1]?, cl.drop k,
      some (cl.take k))) (fun k => lookOKb (cl.drop k)), hfind]
    rfl
  cases cl with
  | nil => exact absurd rfl hne
  | cons c tl =>
    rw [Re.search, Re.searchAux, hhead]
    have hlen2 : (c :: tl).length - (List.drop k0 (c :: tl)).length = k0 := by
      rw [List.length_drop]
      simp only [List.length_cons] at hk2 ⊢
      omega
    simp only [hlen2]

/-- A non-empty prefix shares the head. -/
theorem prefix_head_eq (p l : List Nat) (hp : p <+: l) (hne : p ≠ []) :
    p.head? = l.head? := by
  obtain ⟨t, rfl⟩ := hp
  cases p with
  | nil => exact absurd rfl hne
  | cons d ds => rfl

/-- Dropping the whitespace prefix twice is the same as once. -/
theorem dropWhile_ws_idem (l : List Nat) :
    (l.dropWhile isWsB).dropWhile isWsB = l.dropWhile isWsB := by
  rcases h : l.dropWhile isWsB with _ | ⟨d, ds⟩
  · rfl
  · have hd : isWsB d = false := dropWhile_head_false (by rw [h]; rfl)
    rw [List.dropWhile_cons_of_neg (by simp [hd])]

/-- Right-stripping is idempotent. -/
theorem rstripWs_idem (l : List Nat) : rstripWs (rstripWs l) = rstripWs l := by
  show ((rstripWs l).reverse.dropWhile isWsB).reverse = rstripWs l
  rw [show (rstripWs l).reverse = l.reverse.dropWhile isWsB from by
    rw [rstripWs, List.reverse_reverse]]
  rw [dropWhile_ws_idem]
  rw [rstripWs]

/-- On a list with a non-whitespace head, stripping reduces to
right-stripping. -/
theorem stripWs_of_head (l : List Nat)
    (h : ∀ c, l.head? = some c → isWsB c = false) :
    stripWs l = rstripWs l := by
  rw [stripWs]
  congr 1
  cases l with
  | nil => rfl
  | cons c cs =>
    have hc := h c rfl
    rw [List.dropWhile_cons_of_neg (by simp [hc])]

/-- On a list with a non-whitespace head, stripping and then
right-stripping again changes nothing. -/
theorem stripWs_rstripWs (l : List Nat)
    (h : ∀ c, l.head? = some c → isWsB c = false) :
    stripWs (rstripWs l) = stripWs l := by
  have h2 : ∀ c, (rstripWs l).head? = some c → isWsB c = false := by
    intro c hc
    have hne : rstripWs l ≠ [] := by
      intro h0
      rw [h0] at hc
      cases hc
    have heq := prefix_head_eq (rstripWs l) l (rstripWs_isPre l) hne
    rw [heq] at hc
    exact h c hc
  rw [stripWs_of_head (rstripWs l) h2, rstripWs_idem, stripWs_of_head l h]

/-- A prefix of a list is a prefix of any long enough take. -/
theorem prefix_take_of_le (l m : List Nat) (n : Nat) (h : l <+: m)
    (hn : l.length ≤ n) : l <+: m.take n := by
  obtain ⟨t, rfl⟩ := h
  rw [List.take_append_eq_append_take]
  have h3 : l.take n = l := List.take_of_length_le hn
  rw [h3]
  exact List.prefix_append _ _

/-- CRLF collapsing keeps a head that is not a carriage return. -/
theorem normCRLF_head_of (l : List Nat) (c : Nat) (hc : l.head? = some c)
    (h13 : c ≠ 13) : (normCRLF l).head? = some c := by
  cases l with
  | nil => cases hc
  | cons a t =>
    have ha : a = c := by simpa using hc
    subst ha
    cases t with
    | nil => rfl
    | cons b u =>
      rw [normCRLF, if_neg (fun h2 => h13 h2.1)]
      rfl

/-- The head of a stripped string is never whitespace. -/
theorem stripWs_head (l : List Nat) :
    ∀ c, (stripWs l).head? = some c → isWsB c = false := by
  intro c hc
  have hpre : stripWs l <+: l.dropWhile isWsB := by
    rw [stripWs]
    exact rstripWs_isPre _
  have hne : stripWs l ≠ [] := by
    intro h0
    rw [h0] at hc
    cases hc
  have heq := prefix_head_eq _ _ hpre hne
  rw [heq] at hc
  exact dropWhile_head_false hc

/-- The head of the cleaned body is never whitespace. -/
theorem cleanedOf_head (body : List Nat) :
    ∀ c, (cleanedOf body).head? = some c → isWsB c = false := by
  intro c hc
  rw [cleanedOf] at hc
  rcases hs : (stripWs body).head? with _ | c2
  · have h0 : stripWs body = [] := by
      cases hsb : stripWs body with
      | nil => rfl
      | cons x y => rw [hsb] at hs; cases hs
    rw [h0] at hc
    cases hc
  · have hw2 : isWsB c2 = false := stripWs_head body c2 hs
    have h13 : c2 ≠ 13 := by
      intro h
      rw [h] at hw2
      exact absurd hw2 (by decide)
    have hn := normCRLF_head_of (stripWs body) c2 hs h13
    rw [hn] at hc
    have hcc : c2 = c := by simpa using hc
    subst hcc
    exact hw2

/-- A labelled pattern never matches a text in which its label does not
occur. -/
theorem labelled_search_none (L : String) (b : Re.Regex) (cl : List Nat)
    (h : ciOccurs (codes L) cl = false) :
    Re.search true (labelled L b) cl = none := by
  rw [Re.search, labelled, rword]
  exact searchAux_word_seq_none (codes L) _ cl none
    (fun s2 hs2 => noOcc_wordAtHead (codes L) cl s2 hs2 h)

/-- Specification of the fallback capture length: the length of the
right-stripped first line is at least 1, at most the text length, its
lookahead succeeds, every shorter positive length fails the lookahead,
and taking that many characters yields the right-stripped first line.
(The text is assumed non-empty with a non-whitespace head, as the
cleaned body always is.) -/
theorem fallback_k0_spec (cl : List Nat) (hne : cl ≠ [])
    (hhead : ∀ c, cl.head? = some c → isWsB c = false) :
    1 ≤ (rstripWs (firstLine cl)).length ∧
    (rstripWs (firstLine cl)).length ≤ cl.length ∧
    lookOKb (cl.drop (rstripWs (firstLine cl)).length) = true ∧
    (∀ i, 1 ≤ i → i < (rstripWs (firstLine cl)).length ->
      lookOKb (cl.drop i) = false) ∧
    cl.take (rstripWs (firstLine cl)).length = rstripWs (firstLine cl) := by
  obtain ⟨c0, hc0⟩ : ∃ c0, cl.head? = some c0 := by
    cases cl with
    | nil => exact absurd rfl hne
    | cons a b => exact ⟨a, rfl⟩
  have hc0ws : isWsB c0 = false := hhead c0 hc0
  have hc0ne10 : c0 ≠ 10 := by
    intro h10
    rw [h10] at hc0ws
    exact absurd hc0ws (by decide)
  have hflpre : firstLine cl <+: cl := List.takeWhile_prefix _
  have hflhead : (firstLine cl).head? = some c0 := by
    cases cl with
    | nil => exact absurd rfl hne
    | cons a b =>
      have ha : a = c0 := by simpa using hc0
      subst ha
      rw [firstLine, List.takeWhile_cons_of_pos (by simp [hc0ne10])]
      rfl
  set fl := firstLine cl with hfl
  set R := rstripWs fl with hR
  set T := (fl.reverse.takeWhile isWsB).reverse with hT
  have hdecomp := rstripWs_decomp fl
  rw [← hR, ← hT] at hdecomp
  have hRne : R ≠ [] := by
    intro hnil
    have hflT : fl = T := by rw [hdecomp.1, hnil, List.nil_append]
    have hmem : c0 ∈ T := by
      rw [← hflT]
      cases hfle : fl with
      | nil => rw [hfle] at hflhead; cases hflhead
      | cons a b =>
        rw [hfle] at hflhead
        have ha : a = c0 := by simpa using hflhead
        subst ha
        exact List.mem_cons_self _ _
    have hcw := (List.all_eq_true.1 hdecomp.2) c0 hmem
    rw [hc0ws] at hcw
    cases hcw
  have hk1 : 1 ≤ R.length := by
    cases hRc : R with
    | nil => exact absurd hRc hRne
    | cons x y => simp
  have hRpre_fl : R <+: fl := rstripWs_isPre fl
  have hRpre : R <+: cl := hRpre_fl.trans hflpre
  have hk2 : R.length ≤ cl.length := hRpre.length_le
  have htake : cl.take R.length = R := (List.prefix_iff_eq_take.1 hRpre).symm
  set rest := cl.dropWhile (fun c => c ≠ 10) with hrest_def
  have hsplit : cl = fl ++ rest := by
    rw [hfl, hrest_def, firstLine]
    exact (List.takeWhile_append_dropWhile _ _).symm
  have hrest : lineEndB rest = true := by
    rcases hr : rest with _ | ⟨d, ds⟩
    · rfl
    · have hh : rest.head? = some d := by rw [hr]; rfl
      rw [hrest_def] at hh
      have hd := dropWhile_head_false hh
      have hd10 : d = 10 := by simpa using hd
      rw [lineEndB, hd10]
      rfl
  have hflRT : fl.length = R.length + T.length := by
    rw [hdecomp.1, List.length_append]
  have hdropk0 : cl.drop R.length = T ++ rest := by
    rw [hsplit, hdecomp.1, List.append_assoc]
    exact List.drop_left R (T ++ rest)
  have hlook : lookOKb (cl.drop R.length) = true := by
    rw [hdropk0, lookOKb, List.any_eq_true]
    refine ⟨T.length, ?_, ?_⟩
    · rw [List.mem_range, runLen_ws_append T rest hdecomp.2]
      omega
    · rw [List.drop_left]
      exact hrest
  have hmin : ∀ i, 1 ≤ i → i < R.length → lookOKb (cl.drop i) = false := by
    intro i hi1 hik
    rw [lookOKb, List.any_eq_false]
    intro j hj
    rw [List.mem_range] at hj
    intro hle
    rw [List.drop_drop] at hle
    have hflij : fl.length ≤ i + j := by
      by_contra hlt
      push_neg at hlt
      have hdij : cl.drop (i + j) = fl.drop (i + j) ++ rest := by
        conv_lhs => rw [hsplit]
        exact List.drop_append_of_le_length (by omega)
      rcases hfd : fl.drop (i + j) with _ | ⟨d, ds⟩
      . have hlen := congrArg List.length hfd
        rw [List.length_drop] at hlen
        simp at hlen
        omega
      . rw [hdij, hfd] at hle
        have hdm0 : d ∈ fl.drop (i + j) := by
          rw [hfd]
          exact List.mem_cons_self _ _
        have hdmem : d ∈ fl := List.mem_of_mem_drop hdm0
        rw [hfl, firstLine] at hdmem
        have hd10 := List.mem_takeWhile_imp hdmem
        have hdeq : (d == 10) = true := hle
        have hdval : d = 10 := by simpa using hdeq
        rw [hdval] at hd10
        exact absurd hd10 (by decide)
    have hws := take_runLen_ws (cl.drop i) j (by omega)
    rw [wsOnly] at hws
    have hRd := List.dropLast_append_getLast hRne
    set d := R.getLast hRne with hd_def
    have hdws : isWsB d = false := by
      refine rstripWs_last_not_ws fl d ?_
      rw [← hR, ← hRd, List.getLast?_concat, hd_def]
    have hdropiR : R.drop i = R.dropLast.drop i ++ [d] := by
      conv_lhs => rw [← hRd]
      rw [List.drop_append_of_le_length (by
        rw [List.length_dropLast]
        omega), hd_def]
    have hclDropi : cl.drop i = R.drop i ++ (T ++ rest) := by
      rw [hsplit, hdecomp.1, List.append_assoc]
      exact List.drop_append_of_le_length (by omega)
    have hpre2 : R.drop i <+: cl.drop i := by
      rw [hclDropi]
      exact List.prefix_append _ _
    have hlen3 : (R.drop i).length ≤ j := by
      rw [List.length_drop]
      omega
    have hdin : d ∈ (cl.drop i).take j := by
      refine (prefix_take_of_le _ _ _ hpre2 hlen3).subset ?_
      rw [hdropiR]
      exact List.mem_append_right _ (List.mem_cons_self _ _)
    have hcontra := (List.all_eq_true.1 hws) d hdin
    rw [hdws] at hcontra
    cases hcontra
  exact ⟨hk1, hk2, hlook, hmin, htake⟩
/-- C10 counterexample: the body "x\ny z" is non-empty and contains no
recognised label, yet the parsed name is "x" (the first line), not the
whole text trimmed with whitespace runs collapsed ("x y z"). -/
theorem claim_C10_counterexample :
    noLabels (cleanedOf (codes "x\ny z")) ∧
    codes "x\ny z" ≠ [] ∧
    (parse_contact_info (codes "x\ny z")).head? =
      some (codes "name", codes "x") ∧
    codes "x" ≠ collapseWs (stripWs (codes "x\ny z")) := by
  refine ⟨by decide, by decide, by decide, by decide⟩

/-- C10 (amended): for every body whose cleaned text contains none of
the recognised labels, the permissive fallback captures the FIRST LINE
of the cleaned text (trimmed, whitespace runs collapsed) as the name,
while address, postcode, skills and other are empty. -/
theorem claim_C10_fallback_first_line (body : List Nat)
    (hno : noLabels (cleanedOf body)) :
    parse_contact_info body =
      [ (codes "name", postValue (firstLine (cleanedOf body))),
        (codes "address", []),
        (codes "postcode", []),
        (codes "skills", []),
        (codes "other", []) ] := by
  by_cases hcl : cleanedOf body = []
  · simp only [parse_contact_info]
    rw [hcl]
    decide
  · have hhead := cleanedOf_head body
    obtain ⟨hk1, hk2, hlook, hmin, htake⟩ :=
      fallback_k0_spec (cleanedOf body) hcl hhead
    have hw : ∀ (j : Nat), ∀ w ∈ labelStrings,
        Re.wordAtHead true (codes w) ((cleanedOf body).drop j) = false := by
      intro j w hwmem
      exact noOcc_wordAtHead (codes w) (cleanedOf body) _
        (List.drop_suffix _ _) (hno w hwmem)
    have h2 := namePat2_search_eq (cleanedOf body) hcl hw
      ((rstripWs (firstLine (cleanedOf body))).length) hk1 hk2 hlook hmin
    have hn1 : Re.search true namePat1 (cleanedOf body) = none := by
      rw [namePat1]
      exact labelled_search_none "name" _ _ (hno "name" (by decide))
    have hfname : fieldValue [namePat1, namePat2] (cleanedOf body) =
        postValue ((cleanedOf body).take
          (rstripWs (firstLine (cleanedOf body))).length) := by
      rw [fieldValue, hn1]
      change fieldValue [namePat2] (cleanedOf body) = _
      rw [fieldValue, h2]
      rfl
    have hfa : fieldValue [addrPat1, addrPat2] (cleanedOf body) = [] := by
      have e1 : Re.search true addrPat1 (cleanedOf body) = none := by
        rw [addrPat1]
        exact labelled_search_none "address" _ _ (hno "address" (by decide))
      have e2 : Re.search true addrPat2 (cleanedOf body) = none := by
        rw [addrPat2]
        exact labelled_search_none "address" _ _ (hno "address" (by decide))
      rw [fieldValue, e1]
      change fieldValue [addrPat2] (cleanedOf body) = _
      rw [fieldValue, e2]
      rfl
    have hfp : fieldValue [pcPat1, pcPat2] (cleanedOf body) = [] := by
      have e1 : Re.search true pcPat1 (cleanedOf body) = none := by
        rw [pcPat1]
        exact labelled_search_none "postcode" _ _ (hno "postcode" (by decide))
      have e2 : Re.search true pcPat2 (cleanedOf body) = none := by
        rw [pcPat2]
        exact labelled_search_none "postcode" _ _ (hno "postcode" (by decide))
      rw [fieldValue, e1]
      change fieldValue [pcPat2] (cleanedOf body) = _
      rw [fieldValue, e2]
      rfl
    have hfs : fieldValue [skPat1, skPat2] (cleanedOf body) = [] := by
      have e1 : Re.search true skPat1 (cleanedOf body) = none := by
        rw [skPat1]
        exact labelled_search_none "skills" _ _ (hno "skills" (by decide))
      have e2 : Re.search true skPat2 (cleanedOf body) = none := by
        rw [skPat2]
        exact labelled_search_none "skills" _ _ (hno "skills" (by decide))
      rw [fieldValue, e1]
      change fieldValue [skPat2] (cleanedOf body) = _
      rw [fieldValue, e2]
      rfl
    have hfo : fieldValue [otPat1, otPat2] (cleanedOf body) = [] := by
      have e1 : Re.search true otPat1 (cleanedOf body) = none := by
        rw [otPat1]
        exact labelled_search_none "other" _ _ (hno "other" (by decide))
      have e2 : Re.search true otPat2 (cleanedOf body) = none := by
        rw [otPat2]
        exact labelled_search_none "other" _ _ (hno "other" (by decide))
      rw [fieldValue, e1]
      change fieldValue [otPat2] (cleanedOf body) = _
      rw [fieldValue, e2]
      rfl
    have hflh : ∀ c, (firstLine (cleanedOf body)).head? = some c ->
        isWsB c = false := by
      intro c hc
      have hne2 : firstLine (cleanedOf body) ≠ [] := by
        intro h0
        rw [h0] at hc
        cases hc
      have hpre3 : firstLine (cleanedOf body) <+: cleanedOf body :=
        List.takeWhile_prefix _
      have heq := prefix_head_eq _ _ hpre3 hne2
      rw [heq] at hc
      exact hhead c hc
    have hpost : postValue (rstripWs (firstLine (cleanedOf body))) =
        postValue (firstLine (cleanedOf body)) := by
      rw [postValue, postValue, stripWs_rstripWs _ hflh]
    simp only [parse_contact_info]
    rw [hfname, hfa, hfp, hfs, hfo, htake, hpost]

/-- C10 witness: the amended theorem applied to the label-free body
"hello world". -/
theorem claim_C10_fallback_first_line_witness :
    noLabels (cleanedOf (codes "hello world")) ∧
    parse_contact_info (codes "hello world") =
      [ (codes "name", postValue (firstLine (cleanedOf (codes "hello world")))),
        (codes "address", []),
        (codes "postcode", []),
        (codes "skills", []),
        (codes "other", []) ] :=
  ⟨by decide, claim_C10_fallback_first_line (codes "hello world") (by decide)⟩
end EmailDB
